import Mathlib

/-!
Verification development for `next-quick-cache` (src/src/index.ts).

The library is a process-local memoization cache with stale-while-revalidate
semantics.  The TypeScript module keeps five pieces of module-level mutable
state (`cache`, `inFlightRequests`, `backgroundRevalidations`, `pendingWrites`,
`tagToCacheKeys`) plus the on-disk files, and all concurrency is JavaScript's
single-threaded cooperative concurrency: execution is a sequence of atomic
synchronous segments, with interleaving possible only at `await` points.

We embed the module shallowly as a state machine:

* `CState` is the module-level shared state (plus the disk contents and the
  current clock, standing for `Date.now()`);
* `Task` is the program counter of one suspended asynchronous activity
  (a caller of the cached wrapper parked at one of its `await` points, a
  producer invocation waiting to settle, a pending disk-write body);
* `step : Act → Sys → Sys` executes one atomic synchronous segment of the
  TypeScript source, chosen by the scheduler action `Act`.

Each segment function below mirrors a contiguous synchronous stretch of
src/src/index.ts; line numbers are cited at each definition.

Data values (`TReturn`) are modeled as `Nat`.  The sha-256 file-name hash is
modeled as an injective tagging function (collision freedom of the hash is the
source's implicit assumption).  `Infinity` expiries and `revalidate: false`
are modeled as `none` of an `Option Nat`.
-/

namespace QuickCache

/-! ## Association lists

`Map` objects of the source are modeled as association lists with
replace-or-append insertion (the semantics of JavaScript `Map.set`). -/

variable {κ : Type} {α : Type} [DecidableEq κ]

/-- Lookup in an association list; models `Map.get`. -/
def alookup (k : κ) : List (κ × α) → Option α
  | [] => none
  | (k', v) :: t => if k' = k then some v else alookup k t

/-- Insert into an association list, replacing the binding if the key is
present and appending otherwise; models `Map.set`. -/
def ainsert (k : κ) (v : α) : List (κ × α) → List (κ × α)
  | [] => [(k, v)]
  | (k', v') :: t => if k' = k then (k, v) :: t else (k', v') :: ainsert k v t

/-- Remove every binding of a key from an association list; models
`Map.delete`. -/
def aremove (k : κ) : List (κ × α) → List (κ × α)
  | [] => []
  | (k', v') :: t => if k' = k then aremove k t else (k', v') :: aremove k t

/-! ## Data model (src/src/index.ts lines 16-29)

`CacheEntry<T>` with `T` modeled as `Nat`.  `expiry : Option Nat` uses `none`
for `Infinity`; `revalidate : Option Nat` uses `none` for the literal `false`
(revalidation disabled) and `some n` for a seconds-to-live `n`. -/

/-- Mirror of `CacheEntry<T>` (lines 24-29), with `T := Nat` and `tags`
always present (the source writes `tags` on every entry it constructs). -/
structure Entry where
  data : Nat
  expiry : Option Nat
  revalidate : Option Nat
  tags : List String
deriving DecidableEq

/-- Mirror of `CacheOptions` after the destructuring with defaults on line
119: `const { revalidate = false, startingValue, persistToDisk = true,
tags = [], serveStale = true } = options`.  The optional `startingValue`
function is modeled by the flag `hasStartingValue` together with the value
`placeholderVal` it would return for this call's arguments. -/
structure Config where
  revalidate : Option Nat
  hasStartingValue : Bool
  placeholderVal : Nat
  persistToDisk : Bool
  tags : List String
  serveStale : Bool
deriving DecidableEq

/-- Settlement of a producer promise: resolved with a value or rejected with
an error code. -/
inductive Outcome where
  | ok (v : Nat)
  | fail (e : Nat)
deriving DecidableEq

/-- The module-level shared state of src/src/index.ts (lines 7-12), together
with the disk contents and the clock.

* `cache`       — `const cache = new Map<string, CacheEntry<unknown>>()` (line 7)
* `inFlight`    — `inFlightRequests` (line 8), key to the promise id of the
                  outstanding foreground request
* `backgroundRevals` — `backgroundRevalidations` (line 9), a `Set<string>`
* `pendingWrites` — line 10, file path to (write promise id, latest entry)
* `tagToCacheKeys` — line 12, tag to the list of cache keys (a `Set`, modeled
                  as a duplicate-free-by-insertion list)
* `disk`        — contents of the cache directory, file path to decoded entry
* `now`         — the value `Date.now()` returns during the current atomic
                  segment -/
structure CState where
  cache : List (String × Entry)
  inFlight : List (String × Nat)
  backgroundRevals : List String
  pendingWrites : List (String × (Nat × Entry))
  tagToCacheKeys : List (String × List String)
  disk : List (String × Entry)
  now : Nat
deriving DecidableEq

/-- Program counter of one suspended asynchronous activity.  JavaScript is
single threaded: a task runs one synchronous segment atomically and suspends
only at an `await`.

* `callStart cfg k` — a caller of the cached wrapper about to execute the
  body (line 121), for cache key `k` under options `cfg`;
* `callDisk cfg k` — the caller suspended in `await loadFromDisk(cacheKey)`
  (line 131);
* `callAwait pid` — the caller suspended awaiting the shared in-flight
  promise (line 166) or its own `requestPromise` (line 206);
* `fgSettle cfg k pid` — the body of `requestPromise` (lines 170-198)
  suspended at `await fetchData(...args)` (line 172); the producer invocation
  is outstanding and will resolve promise `pid`;
* `bgSettle cfg k` — the background revalidation body (lines 222-251)
  suspended at `await fetchData(...args)` (line 224);
* `writeBody path fallback wpid` — the `writeOperation` of `saveToDisk`
  (lines 70-81) suspended at `await initializeCacheDirectory()`; on resume it
  captures the latest pending payload (line 73) and starts the file write;
* `writeFin path payload wpid` — the same operation suspended at
  `await fs.writeFile(...)` (line 74) with the captured payload. -/
inductive Task where
  | callStart (cfg : Config) (k : String)
  | callDisk (cfg : Config) (k : String)
  | callAwait (pid : Nat)
  | fgSettle (cfg : Config) (k : String) (pid : Nat)
  | bgSettle (cfg : Config) (k : String)
  | writeBody (path : String) (fallback : Entry) (wpid : Nat)
  | writeFin (path : String) (payload : Entry) (wpid : Nat)
deriving DecidableEq

/-- Whole-system state: shared module state plus the pool of suspended tasks
and instrumentation logs.

* `tasks`   — suspended tasks, keyed by task id; a producer task's id doubles
  as its promise id;
* `nextId`  — fresh-id counter;
* `promises` — settled producer promises (promise id to outcome);
* `writePromises` — settled disk-write promises (id to success flag);
* `results` — final value returned to each finished caller;
* `invocations` — log of every producer invocation ever started
  (cache key, id of the producer task), in start order;
* `placeholderCalls` — log of every invocation of a caller-supplied
  `startingValue` (lines 164 and 203), by caller task id;
* `writeStarts` — log of every `writeOperation` created by `saveToDisk`
  (line 70), by file path;
* `saveReturns` — the write promise id handed back by each `saveToDisk`
  request, in request order. -/
structure Sys where
  st : CState
  tasks : List (Nat × Task)
  nextId : Nat
  promises : List (Nat × Outcome)
  writePromises : List (Nat × Bool)
  results : List (Nat × Outcome)
  invocations : List (String × Nat)
  placeholderCalls : List Nat
  writeStarts : List String
  saveReturns : List Nat
deriving DecidableEq

/-! ## Source-mirroring helper functions -/

/-- The test `Date.now() > expiry`, with `Infinity` (`none`) never exceeded;
this is the comparison of line 149 and also the `isExpired` computation of
`loadFromDisk` (line 54: `entry.expiry !== Infinity && Date.now() > entry.expiry`). -/
def isPastExpiry (now : Nat) (expiry : Option Nat) : Bool :=
  match expiry with
  | none => false
  | some e => decide (e < now)

/-- Line 149: `const needsRevalidation = revalidate !== false && Date.now() >
cachedEntry.expiry`.  Note the first operand is the `revalidate` captured
from the wrapper's options, not the `revalidate` field stored in the entry. -/
def needsRevalidation (revalidate : Option Nat) (now : Nat) (e : Entry) : Bool :=
  revalidate.isSome && isPastExpiry now e.expiry

/-- Lines 173 and 225: `const expiry = revalidate === false ? Infinity :
Date.now() + revalidate * 1000`. -/
def computeExpiry (now : Nat) (revalidate : Option Nat) : Option Nat :=
  match revalidate with
  | none => none
  | some r => some (now + r * 1000)

/-- The fresh entry constructed on producer success (lines 174-179 and
226-231). -/
def mkFreshEntry (cfg : Config) (v : Nat) (now : Nat) : Entry :=
  { data := v
    expiry := computeExpiry now cfg.revalidate
    revalidate := cfg.revalidate
    tags := cfg.tags }

/-- Lines 43-46, `getCacheFilePath`: the cache-file name is the sha-256 hex
digest of the cache key.  The hash is modeled as an opaque injective tagging
of the key (collision freedom of sha-256 is the source's implicit
assumption). -/
def getCacheFilePath (k : String) : String :=
  "sha256:" ++ k

/-- Adding a key under each of a list of tags in `tagToCacheKeys` (lines
137-144, 181-188, 233-240: create the `Set` if the tag is unknown, then
`Set.add`, which is a no-op on a present member). -/
def addKeyForTag (k : String) (idx : List (String × List String)) (tag : String) :
    List (String × List String) :=
  match alookup tag idx with
  | none => ainsert tag [k] idx
  | some ks => if k ∈ ks then idx else ainsert tag (ks ++ [k]) idx

/-- Register `k` under every tag of `tags`. -/
def registerTags (tags : List String) (k : String)
    (idx : List (String × List String)) : List (String × List String) :=
  tags.foldl (addKeyForTag k) idx

/-! ## Atomic segments -/

/-- Find the task with a given id. -/
def findTask (tid : Nat) (S : Sys) : Option Task :=
  alookup tid S.tasks

/-- Replace the state of an existing task. -/
def setTask (tid : Nat) (t : Task) (S : Sys) : Sys :=
  { S with tasks := ainsert tid t S.tasks }

/-- Remove a task from the pool. -/
def removeTask (tid : Nat) (S : Sys) : Sys :=
  { S with tasks := aremove tid S.tasks }

/-- A caller's function body returns: record the final value and retire the
task. -/
def finishCall (tid : Nat) (o : Outcome) (S : Sys) : Sys :=
  { S with tasks := aremove tid S.tasks, results := S.results ++ [(tid, o)] }

/-- The synchronous segment of `saveToDisk` (lines 61-84): if a write for the
same file is already pending, swap in the newer payload and hand back the
pending write's promise (lines 64-68); otherwise create the `writeOperation`
(it runs synchronously up to `await initializeCacheDirectory()` and
suspends), register it in `pendingWrites`, and hand back its promise (lines
70-84).  Returns the updated system and the promise id the caller receives. -/
def saveSeg (k : String) (e : Entry) (S : Sys) : Sys × Nat :=
  let path := getCacheFilePath k
  match alookup path S.st.pendingWrites with
  | some pr =>
    ({ S with st.pendingWrites := ainsert path (pr.1, e) S.st.pendingWrites }, pr.1)
  | none =>
    let wpid := S.nextId
    ({ S with
        st.pendingWrites := ainsert path (wpid, e) S.st.pendingWrites
        tasks := S.tasks ++ [(wpid, Task.writeBody path e wpid)]
        nextId := S.nextId + 1
        writeStarts := S.writeStarts ++ [path] }, wpid)

/-- Success continuation shared verbatim by the foreground request (lines
173-193) and the background revalidation (lines 225-245): build the fresh
entry, store it in the cache, register its tags, and, when persistence is on,
call `saveToDisk` with the rejection absorbed by `.catch`. -/
def storeFresh (cfg : Config) (k : String) (v : Nat) (S : Sys) : Sys :=
  let e := mkFreshEntry cfg v S.st.now
  let S1 := { S with
    st.cache := ainsert k e S.st.cache
    st.tagToCacheKeys := if cfg.tags.length > 0
      then registerTags cfg.tags k S.st.tagToCacheKeys
      else S.st.tagToCacheKeys }
  if cfg.persistToDisk then (saveSeg k e S1).1 else S1

/-- Lines 210-221, `revalidateInBackground`: a no-op when a background
revalidation for the key is already outstanding; otherwise register the key
and start the async body, which synchronously invokes the producer and
suspends at its `await` (line 224). -/
def revalInBackground (cfg : Config) (k : String) (S : Sys) : Sys :=
  if k ∈ S.st.backgroundRevals then S
  else
    { S with
        st.backgroundRevals := S.st.backgroundRevals ++ [k]
        tasks := S.tasks ++ [(S.nextId, Task.bgSettle cfg k)]
        invocations := S.invocations ++ [(k, S.nextId)]
        nextId := S.nextId + 1 }

/-- Lines 162-206, the cold-miss / forced-fresh tail of the wrapper body: if
a request is in flight, return the placeholder or attach to the shared
promise (lines 162-168); otherwise start `requestPromise` — which invokes
the producer synchronously and suspends (line 172) — register it (line 200),
and return the placeholder or await it (lines 202-206). -/
def coldPath (tid : Nat) (cfg : Config) (k : String) (S : Sys) : Sys :=
  match alookup k S.st.inFlight with
  | some pid =>
    if cfg.hasStartingValue then
      finishCall tid (Outcome.ok cfg.placeholderVal)
        { S with placeholderCalls := S.placeholderCalls ++ [tid] }
    else
      setTask tid (Task.callAwait pid) S
  | none =>
    let pid := S.nextId
    let S1 := { S with
        tasks := S.tasks ++ [(pid, Task.fgSettle cfg k pid)]
        st.inFlight := ainsert k pid S.st.inFlight
        invocations := S.invocations ++ [(k, pid)]
        nextId := S.nextId + 1 }
    if cfg.hasStartingValue then
      finishCall tid (Outcome.ok cfg.placeholderVal)
        { S1 with placeholderCalls := S1.placeholderCalls ++ [tid] }
    else
      setTask tid (Task.callAwait pid) S1

/-- Lines 148-206, the decision on the (possibly disk-loaded) entry:
fresh entries are served; stale entries with revalidation enabled are either
served with a background refresh (`serveStale`, lines 151-153) or dropped
from the cache before a forced-fresh fetch (line 155); then the cold path. -/
def seg2 (tid : Nat) (cfg : Config) (k : String) (cachedEntry : Option Entry)
    (S : Sys) : Sys :=
  match cachedEntry with
  | some e =>
    if needsRevalidation cfg.revalidate S.st.now e then
      if cfg.serveStale then
        finishCall tid (Outcome.ok e.data) (revalInBackground cfg k S)
      else
        coldPath tid cfg k { S with st.cache := aremove k S.st.cache }
    else
      finishCall tid (Outcome.ok e.data) S
  | none => coldPath tid cfg k S

/-- The first synchronous segment of the wrapper body (lines 121-168): look
the key up in the memory cache; on a miss with persistence enabled, suspend
in `await loadFromDisk` (line 131); otherwise continue with the decision. -/
def runCallStart (tid : Nat) (cfg : Config) (k : String) (S : Sys) : Sys :=
  match alookup k S.st.cache with
  | some e => seg2 tid cfg k (some e) S
  | none =>
    if cfg.persistToDisk then setTask tid (Task.callDisk cfg k) S
    else seg2 tid cfg k none S

/-- Resumption after `await loadFromDisk(cacheKey)` (lines 131-146): a
missing or undecodable file is a miss; a found entry is adopted into the
memory cache only when not expired (line 134), its tags are indexed either
way (lines 137-144), and it is used as the cached entry either way. -/
def runCallDisk (tid : Nat) (cfg : Config) (k : String) (S : Sys) : Sys :=
  match alookup (getCacheFilePath k) S.st.disk with
  | none => seg2 tid cfg k none S
  | some e =>
    let isExpired := isPastExpiry S.st.now e.expiry
    let S1 := if isExpired then S else { S with st.cache := ainsert k e S.st.cache }
    let S2 := { S1 with st.tagToCacheKeys := registerTags e.tags k S1.st.tagToCacheKeys }
    seg2 tid cfg k (some e) S2

/-- Settlement of the foreground `requestPromise` body (lines 170-198): on
success store the fresh entry and start the disk save; in both cases the
`finally` clears the in-flight registration (line 196) and the promise
settles for its awaiters. -/
def settleFg (tid : Nat) (cfg : Config) (k : String) (pid : Nat) (o : Outcome)
    (S : Sys) : Sys :=
  match o with
  | Outcome.ok v =>
    let S1 := storeFresh cfg k v S
    removeTask tid
      { S1 with
          st.inFlight := aremove k S1.st.inFlight
          promises := S1.promises ++ [(pid, Outcome.ok v)] }
  | Outcome.fail e =>
    removeTask tid
      { S with
          st.inFlight := aremove k S.st.inFlight
          promises := S.promises ++ [(pid, Outcome.fail e)] }

/-- Settlement of the background revalidation body (lines 222-251): success
stores the fresh entry and starts the disk save exactly as the foreground
does; failure is only logged (line 247) and changes nothing; the `finally`
clears the background registration (line 249). -/
def settleBg (tid : Nat) (cfg : Config) (k : String) (o : Outcome) (S : Sys) : Sys :=
  match o with
  | Outcome.ok v =>
    let S1 := storeFresh cfg k v S
    removeTask tid
      { S1 with st.backgroundRevals := S1.st.backgroundRevals.filter (fun x => x ≠ k) }
  | Outcome.fail _ =>
    removeTask tid
      { S with st.backgroundRevals := S.st.backgroundRevals.filter (fun x => x ≠ k) }

/-- Resumption of the `writeOperation` after `await initializeCacheDirectory()`
(line 73): capture the latest pending payload for the file — falling back to
the closure's own `entry` — and start `await fs.writeFile(...)` (line 74). -/
def runWriteBody (tid : Nat) (path : String) (fallback : Entry) (wpid : Nat)
    (S : Sys) : Sys :=
  let latest := match alookup path S.st.pendingWrites with
    | some pr => pr.2
    | none => fallback
  setTask tid (Task.writeFin path latest wpid) S

/-- Completion of `await fs.writeFile(...)` (lines 74-80): on success the
file now holds the captured payload; on an I/O failure the promise rejects
(line 77); either way the `finally` clears `pendingWrites` (line 79). -/
def doFinishWrite (tid : Nat) (path : String) (payload : Entry) (wpid : Nat)
    (success : Bool) (S : Sys) : Sys :=
  let S1 := if success then { S with st.disk := ainsert path payload S.st.disk } else S
  removeTask tid
    { S1 with
        st.pendingWrites := aremove path S1.st.pendingWrites
        writePromises := S1.writePromises ++ [(wpid, success)] }

/-- The entry with its expiry forced to the past instant `0`
(`entry.expiry = 0`, line 106). -/
def setExpiryZero (e : Entry) : Entry :=
  { e with expiry := some 0 }

/-- One step of the per-key body of `revalidateTag` (lines 94-109), run to
completion: resolve the entry from memory, falling back to disk; if found,
set its expiry to `0` — mutating the cached object in place when it came
from memory — and save the updated entry to disk.  This models the source's
per-key async closure awaited to completion with no concurrent pending write
for the file (the claims using it assume `pendingWrites` empty, under which
`saveToDisk` writes exactly this entry and resolves). -/
def revalKey (st : CState) (k : String) : CState :=
  match alookup k st.cache with
  | some e =>
    { st with
        cache := ainsert k (setExpiryZero e) st.cache
        disk := ainsert (getCacheFilePath k) (setExpiryZero e) st.disk }
  | none =>
    match alookup (getCacheFilePath k) st.disk with
    | some e =>
      { st with disk := ainsert (getCacheFilePath k) (setExpiryZero e) st.disk }
    | none => st

/-- Lines 87-112, `revalidateTag`, awaited to completion in isolation: an
unknown tag returns immediately (lines 89-91); otherwise every key indexed
under the tag is processed. -/
def revalidateTagFull (tag : String) (st : CState) : CState :=
  match alookup tag st.tagToCacheKeys with
  | none => st
  | some ks => ks.foldl revalKey st

/-! ## The scheduler -/

/-- Scheduler actions: which suspended activity performs its next atomic
synchronous segment, with the environment's choices (producer outcomes, disk
write success, clock advance) as parameters.

* `run tid` — resume a caller segment, a promise awaiter whose promise has
  settled, or a write body;
* `settle tid o` — the producer invocation of task `tid` settles with `o`;
* `finishWrite tid success` — the file write of task `tid` completes;
* `tick n` — `Date.now()` advances by `n` milliseconds;
* `save k e` — a collaborator calls `saveToDisk(k, e)` (the Disk Persistence
  Layer's save operation);
* `revalidateTag tag` — a collaborator calls `revalidateTag(tag)`, run to
  completion in isolation. -/
inductive Act where
  | run (tid : Nat)
  | settle (tid : Nat) (o : Outcome)
  | finishWrite (tid : Nat) (success : Bool)
  | tick (n : Nat)
  | save (k : String) (e : Entry)
  | revalidateTag (tag : String)
deriving DecidableEq

/-- One atomic synchronous segment of the system.  Actions that do not match
a runnable task are no-ops. -/
def step (a : Act) (S : Sys) : Sys :=
  match a with
  | Act.tick n => { S with st.now := S.st.now + n }
  | Act.save k e =>
    let r := saveSeg k e S
    { r.1 with saveReturns := r.1.saveReturns ++ [r.2] }
  | Act.revalidateTag tag => { S with st := revalidateTagFull tag S.st }
  | Act.run tid =>
    match findTask tid S with
    | some (Task.callStart cfg k) => runCallStart tid cfg k S
    | some (Task.callDisk cfg k) => runCallDisk tid cfg k S
    | some (Task.callAwait pid) =>
      match alookup pid S.promises with
      | some o => finishCall tid o S
      | none => S
    | some (Task.writeBody path fb wpid) => runWriteBody tid path fb wpid S
    | _ => S
  | Act.settle tid o =>
    match findTask tid S with
    | some (Task.fgSettle cfg k pid) => settleFg tid cfg k pid o S
    | some (Task.bgSettle cfg k) => settleBg tid cfg k o S
    | _ => S
  | Act.finishWrite tid success =>
    match findTask tid S with
    | some (Task.writeFin path payload wpid) =>
      doFinishWrite tid path payload wpid success S
    | _ => S

/-- Run a schedule. -/
def runActs (acts : List Act) (S : Sys) : Sys :=
  acts.foldl (fun s a => step a s) S

/-- A producer invocation for key `k` is outstanding: a foreground request
body or a background revalidation body for `k` has invoked the producer and
is suspended awaiting its settlement. -/
def isProducerTaskFor (k : String) (t : Task) : Bool :=
  match t with
  | Task.fgSettle _ k' _ => k' = k
  | Task.bgSettle _ k' => k' = k
  | _ => false

/-- Number of producer invocations for key `k` outstanding at this instant. -/
def outstandingInvocations (k : String) (S : Sys) : Nat :=
  (S.tasks.filter (fun p => isProducerTaskFor k p.2)).length

/-! ## Key derivation (lines 121-126)

`const argsKey = JSON.stringify(args)`; `const keyPartsKey = keyParts ?
JSON.stringify(keyParts) : ''`; `const functionKey = fetchData.toString()`;
`const cwdKey = process.cwd()`; and the cache key is the colon-joined
interpolation of the four parts (line 126).

A producer (the `fetchData` function value) is modeled by its object
identity together with its printed source text, which is all `toString()`
exposes.  Arguments and key parts are modeled as lists of strings with a
JSON-style serialization. -/

/-- A producer function value: `ident` distinguishes distinct function
objects; `text` is what `fetchData.toString()` returns.  Two different
function objects may print identically. -/
structure Producer where
  ident : Nat
  text : String
deriving DecidableEq

/-- JSON string quoting with escapes for quote and backslash characters. -/
def jsonQuote (s : String) : String :=
  "\"" ++ String.mk (s.data.foldr
    (fun c acc => if c = '"' ∨ c = '\\' then '\\' :: c :: acc else c :: acc) []) ++ "\""

/-- The serialization `JSON.stringify` applied to an array of strings. -/
def stringifyStrings (l : List String) : String :=
  "[" ++ String.intercalate "," (l.map jsonQuote) ++ "]"

/-- Lines 122-126: derivation of the cache key. -/
def cacheKeyOf (cwd : String) (p : Producer) (keyParts : Option (List String))
    (args : List String) : String :=
  let argsKey := stringifyStrings args
  let keyPartsKey := match keyParts with
    | some kp => stringifyStrings kp
    | none => ""
  cwd ++ ":" ++ p.text ++ ":" ++ keyPartsKey ++ ":" ++ argsKey

/-! ## Predicates and scenario definitions used by the claim theorems -/

/-- The only entry-removing read path: a caller step on key `k` whose wrapper
was created with `serveStale: false` and revalidation enabled (the
`cache.delete(cacheKey)` of line 155 is reachable only on such a step). -/
def isStaleDropStep (a : Act) (S : Sys) (k : String) : Prop :=
  ∃ tid cfg, a = Act.run tid ∧
    (findTask tid S = some (Task.callStart cfg k) ∨
     findTask tid S = some (Task.callDisk cfg k)) ∧
    cfg.serveStale = false ∧ cfg.revalidate.isSome = true

/-- A task is part of the disk-write machinery. -/
def isWriteTask (t : Task) : Prop :=
  (∃ p fb w, t = Task.writeBody p fb w) ∨ (∃ p pl w, t = Task.writeFin p pl w)

/-- Well-formedness: every task id was allocated below the fresh-id counter.
This holds in every reachable system and is assumed by theorems quantifying
over arbitrary states. -/
def taskIdsBound (S : Sys) : Prop :=
  ∀ p ∈ S.tasks, p.1 < S.nextId

/-- The net effect of `revalidateTag` on one key `k`, relating the state
`st0` before the call to the state `st` after it: a key resolvable from
memory has its expiry forced to the past instant `0` both in memory and on
disk; a key resolvable only from disk is updated on disk and still absent
from memory; an unresolvable key is skipped, both stores untouched at it. -/
def tagProcessed (k : String) (st0 st : CState) : Prop :=
  (∀ e, alookup k st0.cache = some e →
      alookup k st.cache = some (setExpiryZero e) ∧
      alookup (getCacheFilePath k) st.disk = some (setExpiryZero e)) ∧
  (alookup k st0.cache = none →
    ∀ e, alookup (getCacheFilePath k) st0.disk = some e →
      alookup k st.cache = none ∧
      alookup (getCacheFilePath k) st.disk = some (setExpiryZero e)) ∧
  (alookup k st0.cache = none → alookup (getCacheFilePath k) st0.disk = none →
      alookup k st.cache = none ∧ alookup (getCacheFilePath k) st.disk = none)

/-- Initial system for the cold-miss deduplication scenario: `n` concurrent
callers of the same wrapper for the same key, no entry anywhere, nothing in
flight. -/
def initCold (cfg : Config) (k : String) (n : Nat) (now : Nat) : Sys :=
  { st := ⟨[], [], [], [], [], [], now⟩
    tasks := (List.range n).map (fun i => (i, Task.callStart cfg k))
    nextId := n
    promises := []
    writePromises := []
    results := []
    invocations := []
    placeholderCalls := []
    writeStarts := []
    saveReturns := [] }

/-- Schedules containing neither a producer settlement nor an external
`saveToDisk` / `revalidateTag` call. -/
def noSettleActs (acts : List Act) : Bool :=
  acts.all (fun a => match a with
    | Act.settle _ _ => false
    | Act.save _ _ => false
    | Act.revalidateTag _ => false
    | _ => true)

/-- Schedules containing no external `saveToDisk` / `revalidateTag` call
(only wrapper callers and their spawned tasks act). -/
def callerOnlyActs (acts : List Act) : Bool :=
  acts.all (fun a => match a with
    | Act.save _ _ => false
    | Act.revalidateTag _ => false
    | _ => true)

/-- Every caller has passed its initial segments: no task is still before
the in-flight check (i.e. none is `callStart` or `callDisk`). -/
def allAttached (S : Sys) : Bool :=
  S.tasks.all (fun p => match p.2 with
    | Task.callStart _ _ => false
    | Task.callDisk _ _ => false
    | _ => true)

/-- Phase-1 invariant for the cold-dedup scenario: no data anywhere, no
settled promise, and either no invocation has started (all callers are still
before the in-flight check) or exactly one has, all callers being attached
to it or still on their way. -/
def inv1 (cfg : Config) (k : String) (S : Sys) : Prop :=
  S.st.cache = [] ∧ S.st.disk = [] ∧
  S.promises = [] ∧ S.results = [] ∧
  (S.tasks.map Prod.fst).Nodup ∧ (∀ p ∈ S.tasks, p.1 < S.nextId) ∧
  ((S.invocations = [] ∧ S.st.inFlight = [] ∧ S.tasks ≠ [] ∧
      (∀ p ∈ S.tasks, p.2 = Task.callStart cfg k ∨ p.2 = Task.callDisk cfg k)) ∨
   (∃ pid, S.invocations = [(k, pid)] ∧ S.st.inFlight = [(k, pid)] ∧
      (pid, Task.fgSettle cfg k pid) ∈ S.tasks ∧
      (∀ p ∈ S.tasks, p.2 = Task.callStart cfg k ∨ p.2 = Task.callDisk cfg k ∨
        p.2 = Task.callAwait pid ∨ p = (pid, Task.fgSettle cfg k pid))))

/-- Phase-2 invariant for the cold-dedup scenario: one producer invocation
was ever started; every remaining task is an awaiter of its promise, the
producer body itself, or disk-write machinery; and once the promise settles
every recorded caller result equals its outcome. -/
def inv2 (cfg : Config) (k : String) (S : Sys) : Prop :=
  ∃ pid, S.invocations = [(k, pid)] ∧
    (S.tasks.map Prod.fst).Nodup ∧ (∀ p ∈ S.tasks, p.1 < S.nextId) ∧
    (∀ p ∈ S.tasks, p.2 = Task.callAwait pid ∨ p = (pid, Task.fgSettle cfg k pid) ∨
      isWriteTask p.2) ∧
    ((S.promises = [] ∧ S.results = []) ∨
     (∃ o, S.promises = [(pid, o)] ∧ (∀ p ∈ S.tasks, p.2 ≠ Task.fgSettle cfg k pid) ∧
        (∀ q ∈ S.results, q.2 = o)))

/-! ## Concrete scenario instances -/

/-- A stale entry: produced value `7`, expired at instant `0`, stored under
a one-second policy, no tags. -/
def eStale : Entry := ⟨7, some 0, some 1, []⟩

/-- Wrapper options with a one-second revalidation policy and `serveStale`
on (the defaults for `persistToDisk` and `serveStale`). -/
def cfgServe : Config := ⟨some 1, false, 0, true, [], true⟩

/-- Wrapper options with a one-second revalidation policy, `serveStale:
false` and `persistToDisk: false`. -/
def cfgBlock : Config := ⟨some 1, false, 0, false, [], false⟩

/-- Two concurrent callers for the same stale key `"k"`: caller `0` through
a `serveStale` wrapper, caller `1` through a `serveStale: false` wrapper over
the same producer (hence the same cache key). -/
def sysTwoCallers : Sys :=
  { st := ⟨[("k", eStale)], [], [], [], [], [], 5⟩
    tasks := [(0, Task.callStart cfgServe "k"), (1, Task.callStart cfgBlock "k")]
    nextId := 2
    promises := []
    writePromises := []
    results := []
    invocations := []
    placeholderCalls := []
    writeStarts := []
    saveReturns := [] }

/-- The empty system. -/
def emptySys : Sys := ⟨⟨[], [], [], [], [], [], 0⟩, [], 0, [], [], [], [], [], [], []⟩

/-- First payload for the write-coalescing scenario. -/
def eOne : Entry := ⟨1, none, none, []⟩

/-- Second payload for the write-coalescing scenario. -/
def eTwo : Entry := ⟨2, none, none, []⟩

/-- A single caller through the `serveStale: false` wrapper over the stale
entry: the read path that deletes the entry. -/
def sysStaleDrop : Sys :=
  { st := ⟨[("k", eStale)], [], [], [], [], [], 5⟩
    tasks := [(0, Task.callStart cfgBlock "k")]
    nextId := 1
    promises := []
    writePromises := []
    results := []
    invocations := []
    placeholderCalls := []
    writeStarts := []
    saveReturns := [] }

/-- Wrapper options with revalidation disabled (`revalidate: false`). -/
def cfgDisabled : Config := ⟨none, false, 0, true, [], true⟩

/-- A never-expiring entry carrying tag `"t"` (as created by a success of a
`revalidate: false`, `tags: ["t"]` wrapper). -/
def eTagged : Entry := ⟨7, none, none, ["t"]⟩

/-- One caller through a disabled-policy wrapper over the tagged entry, with
the entry indexed under tag `"t"`. -/
def sysTagged : Sys :=
  { st := ⟨[("k", eTagged)], [], [], [], [("t", ["k"])], [], 5⟩
    tasks := [(0, Task.callStart cfgDisabled "k")]
    nextId := 1
    promises := []
    writePromises := []
    results := []
    invocations := []
    placeholderCalls := []
    writeStarts := []
    saveReturns := [] }

/-- Wrapper options with a placeholder (`startingValue` returning `42`), no
persistence, revalidation disabled. -/
def cfgPlaceholder : Config := ⟨none, true, 42, false, [], true⟩

/-- One cold caller through the placeholder wrapper: the call starts the
producer and returns the placeholder. -/
def sysPlaceholder : Sys :=
  { st := ⟨[], [], [], [], [], [], 0⟩
    tasks := [(0, Task.callStart cfgPlaceholder "k")]
    nextId := 1
    promises := []
    writePromises := []
    results := []
    invocations := []
    placeholderCalls := []
    writeStarts := []
    saveReturns := [] }

/-! # Theorems -/

/-! ## Association-list lemmas -/

theorem alookup_nil (k : κ) : alookup k ([] : List (κ × α)) = none := rfl

theorem mem_ainsert_elim {k : κ} {v : α} {l : List (κ × α)} {x : κ × α}
    (h : x ∈ ainsert k v l) : x = (k, v) ∨ x ∈ l := by
  induction l with
  | nil => simpa [ainsert] using h
  | cons hd t ih =>
    obtain ⟨a, b⟩ := hd
    by_cases hk : a = k
    · simp only [ainsert, if_pos hk, List.mem_cons] at h
      rcases h with h | h
      · exact Or.inl h
      · exact Or.inr (List.mem_cons_of_mem _ h)
    · simp only [ainsert, if_neg hk, List.mem_cons] at h
      rcases h with h | h
      · exact Or.inr (h ▸ List.mem_cons_self _ _)
      · rcases ih h with h | h
        · exact Or.inl h
        · exact Or.inr (List.mem_cons_of_mem _ h)

theorem mem_ainsert_of_ne {k : κ} {v : α} {l : List (κ × α)} {x : κ × α}
    (hx : x ∈ l) (hne : x.1 ≠ k) : x ∈ ainsert k v l := by
  induction l with
  | nil => cases hx
  | cons hd t ih =>
    obtain ⟨a, b⟩ := hd
    by_cases hk : a = k
    · simp only [ainsert, if_pos hk, List.mem_cons]
      rcases List.mem_cons.mp hx with h | h
      · exact absurd (by rw [h]; exact hk) hne
      · exact Or.inr h
    · simp only [ainsert, if_neg hk, List.mem_cons]
      rcases List.mem_cons.mp hx with h | h
      · exact Or.inl h
      · exact Or.inr (ih h)

theorem mem_ainsert_self (k : κ) (v : α) (l : List (κ × α)) :
    (k, v) ∈ ainsert k v l := by
  induction l with
  | nil => simp [ainsert]
  | cons hd t ih =>
    obtain ⟨a, b⟩ := hd
    by_cases hk : a = k
    · simp [ainsert, if_pos hk]
    · simp only [ainsert, if_neg hk, List.mem_cons]
      exact Or.inr ih

theorem alookup_mem {k : κ} {v : α} {l : List (κ × α)}
    (h : alookup k l = some v) : (k, v) ∈ l := by
  induction l with
  | nil => simp [alookup] at h
  | cons hd t ih =>
    obtain ⟨a, b⟩ := hd
    by_cases hk : a = k
    · simp only [alookup, if_pos hk, Option.some.injEq] at h
      subst hk; subst h
      exact List.mem_cons_self _ _
    · simp only [alookup, if_neg hk] at h
      exact List.mem_cons_of_mem _ (ih h)

theorem alookup_ainsert_self (k : κ) (v : α) (l : List (κ × α)) :
    alookup k (ainsert k v l) = some v := by
  induction l with
  | nil => simp [ainsert, alookup]
  | cons hd t ih =>
    obtain ⟨a, b⟩ := hd
    by_cases hk : a = k
    · simp [ainsert, if_pos hk, alookup]
    · simpa only [ainsert, if_neg hk, alookup] using ih

theorem alookup_ainsert_ne {k k' : κ} (hne : k' ≠ k) (v : α) (l : List (κ × α)) :
    alookup k' (ainsert k v l) = alookup k' l := by
  induction l with
  | nil =>
    simp only [ainsert, alookup]
    rw [if_neg (fun h : k = k' => hne h.symm)]
  | cons hd t ih =>
    obtain ⟨a, b⟩ := hd
    by_cases hk : a = k
    · simp only [ainsert, if_pos hk, alookup]
      rw [if_neg (fun h : k = k' => hne h.symm), if_neg (by rw [hk]; exact fun h => hne h.symm)]
    · simp only [ainsert, if_neg hk, alookup]
      by_cases ha : a = k'
      · rw [if_pos ha, if_pos ha]
      · rw [if_neg ha, if_neg ha]
        exact ih

theorem alookup_aremove_self (k : κ) (l : List (κ × α)) :
    alookup k (aremove k l) = none := by
  induction l with
  | nil => simp [aremove, alookup]
  | cons hd t ih =>
    obtain ⟨a, b⟩ := hd
    by_cases hk : a = k
    · simpa [aremove, if_pos hk] using ih
    · simpa only [aremove, if_neg hk, alookup, if_neg hk] using ih

theorem alookup_aremove_ne {k k' : κ} (hne : k' ≠ k) (l : List (κ × α)) :
    alookup k' (aremove k l) = alookup k' l := by
  induction l with
  | nil => simp [aremove]
  | cons hd t ih =>
    obtain ⟨a, b⟩ := hd
    by_cases hk : a = k
    · simp only [aremove, if_pos hk, alookup]
      rw [if_neg (by rw [hk]; exact fun h => hne h.symm)]
      exact ih
    · simp only [aremove, if_neg hk, alookup]
      by_cases ha : a = k'
      · rw [if_pos ha, if_pos ha]
      · rw [if_neg ha, if_neg ha]
        exact ih

theorem mem_aremove_elim {k : κ} {l : List (κ × α)} {x : κ × α}
    (h : x ∈ aremove k l) : x ∈ l ∧ x.1 ≠ k := by
  induction l with
  | nil => simp [aremove] at h
  | cons hd t ih =>
    obtain ⟨a, b⟩ := hd
    by_cases hk : a = k
    · rw [aremove, if_pos hk] at h
      exact ⟨List.mem_cons_of_mem _ (ih h).1, (ih h).2⟩
    · rw [aremove, if_neg hk] at h
      rcases List.mem_cons.mp h with h | h
      · refine ⟨h ▸ List.mem_cons_self _ _, ?_⟩
        rw [h]; exact hk
      · exact ⟨List.mem_cons_of_mem _ (ih h).1, (ih h).2⟩

theorem mem_aremove_of_ne {k : κ} {l : List (κ × α)} {x : κ × α}
    (hx : x ∈ l) (hne : x.1 ≠ k) : x ∈ aremove k l := by
  induction l with
  | nil => cases hx
  | cons hd t ih =>
    obtain ⟨a, b⟩ := hd
    by_cases hk : a = k
    · rw [aremove, if_pos hk]
      rcases List.mem_cons.mp hx with h | h
      · exact absurd (by rw [h]; exact hk) hne
      · exact ih h
    · rw [aremove, if_neg hk]
      rcases List.mem_cons.mp hx with h | h
      · exact h ▸ List.mem_cons_self _ _
      · exact List.mem_cons_of_mem _ (ih h)

theorem keys_ainsert_of_mem {k : κ} {v' : α} (v : α) {l : List (κ × α)}
    (h : alookup k l = some v') :
    (ainsert k v l).map Prod.fst = l.map Prod.fst := by
  induction l with
  | nil => simp [alookup] at h
  | cons hd t ih =>
    obtain ⟨a, b⟩ := hd
    by_cases hk : a = k
    · simp only [ainsert, if_pos hk, List.map_cons]
      rw [hk]
    · simp only [alookup, if_neg hk] at h
      simp only [ainsert, if_neg hk, List.map_cons]
      rw [ih h]

theorem keys_ainsert_of_none {k : κ} (v : α) {l : List (κ × α)}
    (h : alookup k l = none) :
    (ainsert k v l).map Prod.fst = l.map Prod.fst ++ [k] := by
  induction l with
  | nil => simp [ainsert]
  | cons hd t ih =>
    obtain ⟨a, b⟩ := hd
    by_cases hk : a = k
    · simp [alookup, if_pos hk] at h
    · simp only [alookup, if_neg hk] at h
      simp only [ainsert, if_neg hk, List.map_cons, List.cons_append]
      rw [ih h]

theorem aremove_sublist (k : κ) (l : List (κ × α)) : (aremove k l).Sublist l := by
  induction l with
  | nil => simp [aremove]
  | cons hd t ih =>
    obtain ⟨a, b⟩ := hd
    by_cases hk : a = k
    · rw [aremove, if_pos hk]
      exact ih.cons _
    · rw [aremove, if_neg hk]
      exact ih.cons₂ _

theorem keys_aremove_nodup {k : κ} {l : List (κ × α)}
    (h : (l.map Prod.fst).Nodup) : ((aremove k l).map Prod.fst).Nodup :=
  List.Nodup.sublist ((aremove_sublist k l).map Prod.fst) h

theorem alookup_append_left {k : κ} {v : α} {l1 : List (κ × α)} (l2 : List (κ × α))
    (h : alookup k l1 = some v) : alookup k (l1 ++ l2) = some v := by
  induction l1 with
  | nil => simp [alookup] at h
  | cons hd t ih =>
    obtain ⟨a, b⟩ := hd
    by_cases hk : a = k
    · simp only [alookup, if_pos hk] at h
      simp only [List.cons_append, alookup, if_pos hk]
      exact h
    · simp only [alookup, if_neg hk] at h
      simp only [List.cons_append, alookup, if_neg hk]
      exact ih h

theorem mem_keys_nodup_unique {l : List (κ × α)}
    (h : (l.map Prod.fst).Nodup) {k : κ} {a b : α}
    (ha : (k, a) ∈ l) (hb : (k, b) ∈ l) : a = b := by
  induction l with
  | nil => cases ha
  | cons hd t ih =>
    rw [List.map_cons, List.nodup_cons] at h
    rcases List.mem_cons.mp ha with ha1 | ha1
    · rcases List.mem_cons.mp hb with hb1 | hb1
      · exact (congrArg Prod.snd (hb1.trans ha1.symm)).symm
      · exfalso
        apply h.1
        rw [(congrArg Prod.fst ha1).symm]
        exact List.mem_map.mpr ⟨(k, b), hb1, rfl⟩
    · rcases List.mem_cons.mp hb with hb1 | hb1
      · exfalso
        apply h.1
        rw [(congrArg Prod.fst hb1).symm]
        exact List.mem_map.mpr ⟨(k, a), ha1, rfl⟩
      · exact ih h.2 ha1 hb1

theorem nodup_keys_append_fresh {l : List (κ × α)} {n : κ} (x : α)
    (h : (l.map Prod.fst).Nodup) (hf : ∀ p ∈ l, p.1 ≠ n) :
    ((l ++ [(n, x)]).map Prod.fst).Nodup := by
  rw [List.map_append]
  rw [List.nodup_append]
  refine ⟨h, List.nodup_singleton n, ?_⟩
  intro a ha hb
  rcases List.mem_map.mp ha with ⟨p, hp, rfl⟩
  rcases List.mem_singleton.mp hb with rfl
  exact hf p hp rfl

/-! ## Characterizations of saveSeg and storeFresh bookkeeping -/

theorem saveSeg_invocations (k : String) (e : Entry) (S : Sys) :
    (saveSeg k e S).1.invocations = S.invocations := by
  rcases hpw : alookup (getCacheFilePath k) S.st.pendingWrites with _ | pr <;>
    simp [saveSeg, hpw]

theorem saveSeg_promises (k : String) (e : Entry) (S : Sys) :
    (saveSeg k e S).1.promises = S.promises := by
  rcases hpw : alookup (getCacheFilePath k) S.st.pendingWrites with _ | pr <;>
    simp [saveSeg, hpw]

theorem saveSeg_results (k : String) (e : Entry) (S : Sys) :
    (saveSeg k e S).1.results = S.results := by
  rcases hpw : alookup (getCacheFilePath k) S.st.pendingWrites with _ | pr <;>
    simp [saveSeg, hpw]

theorem saveSeg_tasks_nextId (k : String) (e : Entry) (S : Sys) :
    ((saveSeg k e S).1.tasks = S.tasks ∧ (saveSeg k e S).1.nextId = S.nextId) ∨
    ((saveSeg k e S).1.tasks =
        S.tasks ++ [(S.nextId, Task.writeBody (getCacheFilePath k) e S.nextId)] ∧
      (saveSeg k e S).1.nextId = S.nextId + 1) := by
  rcases hpw : alookup (getCacheFilePath k) S.st.pendingWrites with _ | pr
  · right
    simp [saveSeg, hpw]
  · left
    simp [saveSeg, hpw]

theorem storeFresh_invocations (cfg : Config) (k : String) (v : Nat) (S : Sys) :
    (storeFresh cfg k v S).invocations = S.invocations := by
  by_cases hp : cfg.persistToDisk = true
  · simp only [storeFresh, hp, if_true]
    rw [saveSeg_invocations]
  · simp only [storeFresh, if_neg hp]

theorem storeFresh_promises (cfg : Config) (k : String) (v : Nat) (S : Sys) :
    (storeFresh cfg k v S).promises = S.promises := by
  by_cases hp : cfg.persistToDisk = true
  · simp only [storeFresh, hp, if_true]
    rw [saveSeg_promises]
  · simp only [storeFresh, if_neg hp]

theorem storeFresh_results (cfg : Config) (k : String) (v : Nat) (S : Sys) :
    (storeFresh cfg k v S).results = S.results := by
  by_cases hp : cfg.persistToDisk = true
  · simp only [storeFresh, hp, if_true]
    rw [saveSeg_results]
  · simp only [storeFresh, if_neg hp]

theorem storeFresh_tasks_nextId (cfg : Config) (k : String) (v : Nat) (S : Sys) :
    ((storeFresh cfg k v S).tasks = S.tasks ∧
      (storeFresh cfg k v S).nextId = S.nextId) ∨
    ((storeFresh cfg k v S).tasks = S.tasks ++
        [(S.nextId, Task.writeBody (getCacheFilePath k)
          (mkFreshEntry cfg v S.st.now) S.nextId)] ∧
      (storeFresh cfg k v S).nextId = S.nextId + 1) := by
  by_cases hp : cfg.persistToDisk = true
  · simp only [storeFresh, hp, if_true]
    exact saveSeg_tasks_nextId k (mkFreshEntry cfg v S.st.now) _
  · left
    constructor
    · simp only [storeFresh, if_neg hp]
    · simp only [storeFresh, if_neg hp]

/-! ## String lemmas -/

theorem string_ext {a b : String} (h : a.data = b.data) : a = b := by
  cases a; cases b; exact congrArg String.mk h

theorem string_append_cancel {a x y b : String}
    (h : a ++ x ++ b = a ++ y ++ b) : x = y := by
  have hd : (a ++ x ++ b).data = (a ++ y ++ b).data := by rw [h]
  simp only [String.data_append, List.append_assoc] at hd
  exact string_ext (List.append_cancel_right (List.append_cancel_left hd))

theorem runActs_append (a b : List Act) (S : Sys) :
    runActs (a ++ b) S = runActs b (runActs a S) :=
  List.foldl_append _ _ _ _

/-! ## Preservation lemmas for the atomic segments -/

theorem setTask_st (tid : Nat) (t : Task) (S : Sys) : (setTask tid t S).st = S.st := rfl

theorem removeTask_st (tid : Nat) (S : Sys) : (removeTask tid S).st = S.st := rfl

theorem finishCall_st (tid : Nat) (o : Outcome) (S : Sys) :
    (finishCall tid o S).st = S.st := rfl

theorem finishCall_results (tid : Nat) (o : Outcome) (S : Sys) :
    (finishCall tid o S).results = S.results ++ [(tid, o)] := rfl

theorem revalInBackground_st_cache (cfg : Config) (k : String) (S : Sys) :
    (revalInBackground cfg k S).st.cache = S.st.cache := by
  unfold revalInBackground
  split <;> rfl

theorem revalInBackground_st_inFlight (cfg : Config) (k : String) (S : Sys) :
    (revalInBackground cfg k S).st.inFlight = S.st.inFlight := by
  unfold revalInBackground
  split <;> rfl

theorem revalInBackground_results (cfg : Config) (k : String) (S : Sys) :
    (revalInBackground cfg k S).results = S.results := by
  unfold revalInBackground
  split <;> rfl

theorem revalInBackground_placeholderCalls (cfg : Config) (k : String) (S : Sys) :
    (revalInBackground cfg k S).placeholderCalls = S.placeholderCalls := by
  unfold revalInBackground
  split <;> rfl

theorem revalInBackground_mem_bg (cfg : Config) (k : String) (S : Sys) :
    k ∈ (revalInBackground cfg k S).st.backgroundRevals := by
  unfold revalInBackground
  split
  · assumption
  · exact List.mem_append_right _ (List.mem_singleton.mpr rfl)

theorem revalInBackground_spawn (cfg : Config) (k : String) (S : Sys)
    (h : k ∉ S.st.backgroundRevals) :
    (revalInBackground cfg k S).tasks = S.tasks ++ [(S.nextId, Task.bgSettle cfg k)] ∧
    (revalInBackground cfg k S).invocations = S.invocations ++ [(k, S.nextId)] := by
  unfold revalInBackground
  rw [if_neg h]
  exact ⟨rfl, rfl⟩

theorem coldPath_st_cache (tid : Nat) (cfg : Config) (k : String) (S : Sys) :
    (coldPath tid cfg k S).st.cache = S.st.cache := by
  unfold coldPath
  split
  · split <;> rfl
  · split <;> rfl

theorem coldPath_placeholder (tid : Nat) (cfg : Config) (k : String) (S : Sys)
    (h : (coldPath tid cfg k S).placeholderCalls ≠ S.placeholderCalls) :
    cfg.hasStartingValue = true ∧
    ∃ pid, alookup k (coldPath tid cfg k S).st.inFlight = some pid := by
  revert h
  unfold coldPath
  split
  case _ pid heq =>
    split
    case _ hsv =>
      intro _
      exact ⟨hsv, pid, heq⟩
    case _ hsv =>
      intro h
      exact absurd rfl h
  case _ heq =>
    split
    case _ hsv =>
      intro _
      exact ⟨hsv, S.nextId, alookup_ainsert_self _ _ _⟩
    case _ hsv =>
      intro h
      exact absurd rfl h

theorem finishCall_placeholderCalls (tid : Nat) (o : Outcome) (S : Sys) :
    (finishCall tid o S).placeholderCalls = S.placeholderCalls := rfl

theorem seg2_none (tid : Nat) (cfg : Config) (k : String) (S : Sys) :
    seg2 tid cfg k none S = coldPath tid cfg k S := rfl

theorem seg2_some (tid : Nat) (cfg : Config) (k : String) (e : Entry) (S : Sys) :
    seg2 tid cfg k (some e) S =
      if needsRevalidation cfg.revalidate S.st.now e then
        if cfg.serveStale then
          finishCall tid (Outcome.ok e.data) (revalInBackground cfg k S)
        else
          coldPath tid cfg k { S with st.cache := aremove k S.st.cache }
      else
        finishCall tid (Outcome.ok e.data) S := rfl

theorem seg2_placeholder (tid : Nat) (cfg : Config) (k : String)
    (ce : Option Entry) (S : Sys)
    (h : (seg2 tid cfg k ce S).placeholderCalls ≠ S.placeholderCalls) :
    cfg.hasStartingValue = true ∧
    ∃ pid, alookup k (seg2 tid cfg k ce S).st.inFlight = some pid := by
  cases ce with
  | none =>
    rw [seg2_none] at h ⊢
    exact coldPath_placeholder tid cfg k S h
  | some e =>
    rw [seg2_some] at h ⊢
    by_cases hnr : needsRevalidation cfg.revalidate S.st.now e = true
    · rw [if_pos hnr] at h ⊢
      by_cases hss : cfg.serveStale = true
      · rw [if_pos hss] at h
        rw [finishCall_placeholderCalls, revalInBackground_placeholderCalls] at h
        exact absurd rfl h
      · rw [if_neg hss] at h ⊢
        exact coldPath_placeholder tid cfg k _ h
    · rw [if_neg hnr] at h
      rw [finishCall_placeholderCalls] at h
      exact absurd rfl h

theorem saveSeg_st_cache (k : String) (e : Entry) (S : Sys) :
    (saveSeg k e S).1.st.cache = S.st.cache := by
  rcases hpw : alookup (getCacheFilePath k) S.st.pendingWrites with _ | pr <;>
    simp [saveSeg, hpw]

theorem saveSeg_st_disk (k : String) (e : Entry) (S : Sys) :
    (saveSeg k e S).1.st.disk = S.st.disk := by
  rcases hpw : alookup (getCacheFilePath k) S.st.pendingWrites with _ | pr <;>
    simp [saveSeg, hpw]

theorem saveSeg_st_tagIdx (k : String) (e : Entry) (S : Sys) :
    (saveSeg k e S).1.st.tagToCacheKeys = S.st.tagToCacheKeys := by
  rcases hpw : alookup (getCacheFilePath k) S.st.pendingWrites with _ | pr <;>
    simp [saveSeg, hpw]

theorem saveSeg_pending_self (k : String) (e : Entry) (S : Sys) :
    ∃ w, alookup (getCacheFilePath k) (saveSeg k e S).1.st.pendingWrites =
      some (w, e) := by
  rcases hpw : alookup (getCacheFilePath k) S.st.pendingWrites with _ | pr
  · refine ⟨S.nextId, ?_⟩
    simp only [saveSeg, hpw]
    exact alookup_ainsert_self _ _ _
  · refine ⟨pr.1, ?_⟩
    simp only [saveSeg, hpw]
    exact alookup_ainsert_self _ _ _

theorem storeFresh_cache (cfg : Config) (k : String) (v : Nat) (S : Sys) :
    alookup k (storeFresh cfg k v S).st.cache =
      some (mkFreshEntry cfg v S.st.now) := by
  by_cases hp : cfg.persistToDisk = true
  · simp only [storeFresh, hp, if_true]
    rw [saveSeg_st_cache]
    exact alookup_ainsert_self _ _ _
  · simp only [storeFresh, if_neg hp]
    exact alookup_ainsert_self _ _ _

theorem storeFresh_pending (cfg : Config) (k : String) (v : Nat) (S : Sys)
    (hp : cfg.persistToDisk = true) :
    ∃ w, alookup (getCacheFilePath k) (storeFresh cfg k v S).st.pendingWrites =
      some (w, mkFreshEntry cfg v S.st.now) := by
  simp only [storeFresh, hp, if_true]
  exact saveSeg_pending_self _ _ _

/-- Serving a usable entry: a caller step that finds a memory entry and
either does not need revalidation or is in `serveStale` mode returns the
entry's data and never touches the placeholder. -/
theorem serve_entry (S : Sys) (tid : Nat) (cfg : Config) (k : String) (e : Entry)
    (h1 : findTask tid S = some (Task.callStart cfg k))
    (h2 : alookup k S.st.cache = some e)
    (h3 : needsRevalidation cfg.revalidate S.st.now e = false ∨ cfg.serveStale = true) :
    (step (Act.run tid) S).results = S.results ++ [(tid, Outcome.ok e.data)] ∧
    (step (Act.run tid) S).placeholderCalls = S.placeholderCalls := by
  have hstep : step (Act.run tid) S = seg2 tid cfg k (some e) S := by
    simp only [step, h1, runCallStart, h2]
  rw [hstep, seg2_some]
  by_cases hnr : needsRevalidation cfg.revalidate S.st.now e = true
  · have hss : cfg.serveStale = true := by
      rcases h3 with h3 | h3
      · rw [h3] at hnr; cases hnr
      · exact h3
    rw [if_pos hnr, if_pos hss]
    refine ⟨?_, ?_⟩
    · rw [finishCall_results, revalInBackground_results]
    · rw [finishCall_placeholderCalls, revalInBackground_placeholderCalls]
  · rw [if_neg hnr]
    exact ⟨rfl, rfl⟩

/-- A disabled revalidation policy serves any found memory entry as fresh:
the step is exactly a return of the entry's data. -/
theorem serve_disabled (S : Sys) (tid : Nat) (cfg : Config) (k : String) (e : Entry)
    (h1 : findTask tid S = some (Task.callStart cfg k))
    (h2 : alookup k S.st.cache = some e)
    (hrev : cfg.revalidate = none) :
    step (Act.run tid) S = finishCall tid (Outcome.ok e.data) S := by
  have hstep : step (Act.run tid) S = seg2 tid cfg k (some e) S := by
    simp only [step, h1, runCallStart, h2]
  have hnr : ¬ needsRevalidation cfg.revalidate S.st.now e = true := by
    simp [needsRevalidation, hrev]
  rw [hstep, seg2_some, if_neg hnr]

/-! ## Claim C1

The claim asserts that at most one producer invocation per key is ever
outstanding, counting foreground cold-miss invocations and background
revalidations together.  The source tracks the two in separate registries
(`inFlightRequests`, line 8, and `backgroundRevalidations`, line 9):
`revalidateInBackground` consults only the latter (line 218) and the
cold-miss path only the former (line 162), so the two can overlap.  The
trace below exhibits it: caller `0` (a `serveStale` wrapper) finds the entry
for `"k"` stale and starts a background revalidation; caller `1` (a
`serveStale: false` wrapper over the same producer) then finds the same
stale entry, drops it (line 155), sees no foreground request in flight, and
starts a second, concurrent producer invocation for the same key. -/

/-- Claim C1: the deduplication invariant "at most one producer invocation
per key is outstanding at any instant, across foreground misses and
background revalidations combined" is violated by the code: after the
two-caller trace both a background revalidation body and a foreground
request body for key `"k"` are simultaneously awaiting the producer. -/
theorem c1_two_outstanding_invocations :
    outstandingInvocations "k" (runActs [Act.run 0, Act.run 1] sysTwoCallers) = 2 ∧
    (runActs [Act.run 0, Act.run 1] sysTwoCallers).invocations =
      [("k", 2), ("k", 3)] ∧
    (2, Task.bgSettle cfgServe "k") ∈ (runActs [Act.run 0, Act.run 1] sysTwoCallers).tasks ∧
    (3, Task.fgSettle cfgBlock "k" 3) ∈ (runActs [Act.run 0, Act.run 1] sysTwoCallers).tasks := by
  refine ⟨by decide, by decide, by decide, by decide⟩

/-! ## Claim C4

Write coalescing (`saveToDisk`, lines 61-85).  The claim: whenever a save for
key K is pending and a second save for K is requested, the second save's
entry supersedes the first's payload, the two share one file-write, and both
observe that write's completion.  Sharing and joint completion always hold,
but the superseding only happens if the second save arrives before the
pending `writeOperation` has captured its payload (line 73); a save arriving
while `fs.writeFile` is in progress (before the `finally` of line 79 clears
`pendingWrites`) updates a payload nobody will read, and its entry never
reaches the disk. -/

/-- Claim C4 counterexample: `saveToDisk("k", eOne)` starts a write; the
write body captures its payload; then `saveToDisk("k", eTwo)` arrives while
the first save is still pending (it receives the same write promise `0`, so
it coalesces with the pending save rather than starting a new write); the
write completes.  The disk now holds `eOne`, not the second save's `eTwo`,
no further write is pending or running, and `eTwo` was lost — refuting "the
second save's entry supersedes the first's payload". -/
theorem c4_late_save_lost :
    (runActs [Act.save "k" eOne, Act.run 0, Act.save "k" eTwo,
        Act.finishWrite 0 true] emptySys).saveReturns = [0, 0] ∧
    (runActs [Act.save "k" eOne, Act.run 0, Act.save "k" eTwo,
        Act.finishWrite 0 true] emptySys).writeStarts = [getCacheFilePath "k"] ∧
    alookup (getCacheFilePath "k")
      (runActs [Act.save "k" eOne, Act.run 0, Act.save "k" eTwo,
        Act.finishWrite 0 true] emptySys).st.disk = some eOne ∧
    eOne ≠ eTwo ∧
    (runActs [Act.save "k" eOne, Act.run 0, Act.save "k" eTwo,
        Act.finishWrite 0 true] emptySys).tasks = [] ∧
    (runActs [Act.save "k" eOne, Act.run 0, Act.save "k" eTwo,
        Act.finishWrite 0 true] emptySys).st.pendingWrites = [] ∧
    (runActs [Act.save "k" eOne, Act.run 0, Act.save "k" eTwo,
        Act.finishWrite 0 true] emptySys).writePromises = [(0, true)] := by
  refine ⟨by decide, by decide, by decide, by decide, by decide, by decide, by decide⟩

/-- Claim C4 as amended: for any two payloads, two saves for the same key
share one write operation (a single `writeOperation` is created, both
callers receive the same write promise, and that one promise resolves once),
and the second save's entry supersedes the first's payload provided the
second save arrives before the pending write captures its payload; if it
arrives after the capture, the single shared write carries the first save's
payload. -/
theorem c4_write_coalescing_amended (a b : Entry) :
    (runActs [Act.save "k" a, Act.save "k" b, Act.run 0,
        Act.finishWrite 0 true] emptySys).saveReturns = [0, 0] ∧
    (runActs [Act.save "k" a, Act.save "k" b, Act.run 0,
        Act.finishWrite 0 true] emptySys).writeStarts = [getCacheFilePath "k"] ∧
    (runActs [Act.save "k" a, Act.save "k" b, Act.run 0,
        Act.finishWrite 0 true] emptySys).writePromises = [(0, true)] ∧
    alookup (getCacheFilePath "k")
      (runActs [Act.save "k" a, Act.save "k" b, Act.run 0,
        Act.finishWrite 0 true] emptySys).st.disk = some b ∧
    (runActs [Act.save "k" a, Act.run 0, Act.save "k" b,
        Act.finishWrite 0 true] emptySys).saveReturns = [0, 0] ∧
    (runActs [Act.save "k" a, Act.run 0, Act.save "k" b,
        Act.finishWrite 0 true] emptySys).writeStarts = [getCacheFilePath "k"] ∧
    (runActs [Act.save "k" a, Act.run 0, Act.save "k" b,
        Act.finishWrite 0 true] emptySys).writePromises = [(0, true)] ∧
    alookup (getCacheFilePath "k")
      (runActs [Act.save "k" a, Act.run 0, Act.save "k" b,
        Act.finishWrite 0 true] emptySys).st.disk = some a := by
  refine ⟨rfl, rfl, rfl, rfl, rfl, rfl, rfl, rfl⟩

/-! ## Claim C5 counterexample

A stored entry is removed by a plain read: a caller through a wrapper with
revalidation enabled and `serveStale: false` finds the entry stale and
executes `cache.delete(cacheKey)` (line 155) before forcing a fresh fetch.
(The source moreover has no cache-clear operation at all.) -/

/-- Claim C5 counterexample: key `"k"` holds entry `eStale` before the read,
and no entry at all after one step of the reading caller — an entry was
removed from the Entry Store by a read path, refuting "once stored, an entry
is never removed by any operation other than an explicit cache-clear". -/
theorem c5_read_deletes_entry :
    alookup "k" sysStaleDrop.st.cache = some eStale ∧
    alookup "k" (step (Act.run 0) sysStaleDrop).st.cache = none := by
  refine ⟨by decide, by decide⟩

/-! ## Claim C6 counterexample

An entry cached by a `revalidate: false` wrapper and then tag-invalidated is
still served as fresh: `needsRevalidation` (line 149) is
`revalidate !== false && ...` with the wrapper's `revalidate`, so a disabled
policy short-circuits to `false` no matter what `revalidateTag` did to the
stored expiry. -/

/-- Claim C6 counterexample: after `revalidateTag("t")` marks the entry for
`"k"` expired (its stored expiry becomes the past instant `0`, in memory and
on disk), the very next read through the `revalidate: false` wrapper still
returns the cached data with no producer invocation and no background
revalidation — the read does not treat the entry as stale, refuting "after
tag invalidation the next read treats it as stale". -/
theorem c6_tag_invalidation_ignored :
    alookup "k" (runActs [Act.revalidateTag "t"] sysTagged).st.cache =
      some ⟨7, some 0, none, ["t"]⟩ ∧
    (runActs [Act.revalidateTag "t", Act.run 0] sysTagged).results =
      [(0, Outcome.ok 7)] ∧
    (runActs [Act.revalidateTag "t", Act.run 0] sysTagged).invocations = [] ∧
    (runActs [Act.revalidateTag "t", Act.run 0] sysTagged).st.backgroundRevals = [] := by
  refine ⟨by decide, by decide, by decide, by decide⟩

/-! ## Claim C8

The cache key (lines 122-126) is the colon-joined interpolation of
`process.cwd()`, `fetchData.toString()`, the serialized key parts, and the
serialized arguments.  It is a pure function, equal on equal inputs.  But
producer identity enters only through `toString()`: two distinct function
objects with identical printed source collide. -/

/-- Claim C8 counterexample: two distinct producers (different function
objects) whose printed source is the same string receive the same cache key
for identical key parts and arguments — refuting "distinct keys for distinct
producers even when arguments and key parts are identical". -/
theorem c8_distinct_producers_collide :
    (⟨0, "(x) => f(x)"⟩ : Producer) ≠ (⟨1, "(x) => f(x)"⟩ : Producer) ∧
    cacheKeyOf "/app" ⟨0, "(x) => f(x)"⟩ (some ["kp"]) ["a"] =
      cacheKeyOf "/app" ⟨1, "(x) => f(x)"⟩ (some ["kp"]) ["a"] := by
  exact ⟨by decide, rfl⟩

/-- Claim C8 as amended: key derivation is a pure function of the working
directory, the producer's printed source text, the key parts and the
arguments; with the other three inputs fixed, two producers receive the same
key exactly when their printed source texts are equal — so distinct
producers with distinct printed sources get distinct keys, while distinct
function objects sharing one printed source collide. -/
theorem c8_cache_key_text_determined (cwd : String) (p q : Producer)
    (keyParts : Option (List String)) (args : List String) :
    cacheKeyOf cwd p keyParts args = cacheKeyOf cwd q keyParts args ↔
      p.text = q.text := by
  constructor
  · intro h
    cases keyParts with
    | none =>
      have hd := congrArg String.data h
      simp only [cacheKeyOf, String.data_append, List.append_assoc] at hd
      exact string_ext
        (List.append_cancel_right (List.append_cancel_left (List.append_cancel_left hd)))
    | some kp =>
      have hd := congrArg String.data h
      simp only [cacheKeyOf, String.data_append, List.append_assoc] at hd
      exact string_ext
        (List.append_cancel_right (List.append_cancel_left (List.append_cancel_left hd)))
  · intro h
    simp only [cacheKeyOf, h]

/-! ## Further segment equations -/

theorem settleBg_ok_st_cache (tid : Nat) (cfg : Config) (k : String) (v : Nat) (S : Sys) :
    (settleBg tid cfg k (Outcome.ok v) S).st.cache = (storeFresh cfg k v S).st.cache := rfl

theorem settleBg_ok_st_pending (tid : Nat) (cfg : Config) (k : String) (v : Nat) (S : Sys) :
    (settleBg tid cfg k (Outcome.ok v) S).st.pendingWrites =
      (storeFresh cfg k v S).st.pendingWrites := rfl

theorem settleFg_ok_st_cache (tid : Nat) (cfg : Config) (k : String) (pid : Nat)
    (v : Nat) (S : Sys) :
    (settleFg tid cfg k pid (Outcome.ok v) S).st.cache =
      (storeFresh cfg k v S).st.cache := rfl

theorem settleFg_ok_st_pending (tid : Nat) (cfg : Config) (k : String) (pid : Nat)
    (v : Nat) (S : Sys) :
    (settleFg tid cfg k pid (Outcome.ok v) S).st.pendingWrites =
      (storeFresh cfg k v S).st.pendingWrites := rfl

theorem settleBg_fail_st_parts (tid : Nat) (cfg : Config) (k : String) (err : Nat)
    (S : Sys) :
    (settleBg tid cfg k (Outcome.fail err) S).st.cache = S.st.cache ∧
    (settleBg tid cfg k (Outcome.fail err) S).st.disk = S.st.disk ∧
    (settleBg tid cfg k (Outcome.fail err) S).st.pendingWrites = S.st.pendingWrites ∧
    (settleBg tid cfg k (Outcome.fail err) S).st.tagToCacheKeys = S.st.tagToCacheKeys :=
  ⟨rfl, rfl, rfl, rfl⟩

theorem doFinishWrite_true_disk (tid : Nat) (path : String) (payload : Entry)
    (wpid : Nat) (S : Sys) :
    (doFinishWrite tid path payload wpid true S).st.disk =
      ainsert path payload S.st.disk := rfl

/-! ## Claim C2

Stale entry, revalidation enabled, `serveStale` true: the call returns the
stale data in its very first segment (no producer await), makes sure a
background revalidation is outstanding (starting one exactly when none is),
and the background settlement updates the stores exactly as a foreground
settlement does — success installs `mkFreshEntry` and hands it to
`saveToDisk`; failure leaves every store untouched. -/

/-- Claim C2: a stale read under `serveStale` returns the stale data
immediately and triggers (or joins) a background revalidation; background
success installs the fresh entry in the cache and pending disk write exactly
as a foreground success does; background failure leaves the cache, disk,
pending writes and tag index unchanged; and a completing disk write stores
its payload. -/
theorem c2_stale_serve_and_background_refresh :
    (∀ (S : Sys) (tid : Nat) (cfg : Config) (k : String) (e : Entry),
      taskIdsBound S →
      findTask tid S = some (Task.callStart cfg k) →
      alookup k S.st.cache = some e →
      cfg.revalidate.isSome = true →
      isPastExpiry S.st.now e.expiry = true →
      cfg.serveStale = true →
      (step (Act.run tid) S).results = S.results ++ [(tid, Outcome.ok e.data)] ∧
      k ∈ (step (Act.run tid) S).st.backgroundRevals ∧
      (k ∉ S.st.backgroundRevals →
        (S.nextId, Task.bgSettle cfg k) ∈ (step (Act.run tid) S).tasks ∧
        (step (Act.run tid) S).invocations = S.invocations ++ [(k, S.nextId)])) ∧
    (∀ (S : Sys) (tid : Nat) (cfg : Config) (k : String) (v : Nat),
      findTask tid S = some (Task.bgSettle cfg k) →
      alookup k (step (Act.settle tid (Outcome.ok v)) S).st.cache =
        some (mkFreshEntry cfg v S.st.now) ∧
      (cfg.persistToDisk = true →
        ∃ w, alookup (getCacheFilePath k)
          (step (Act.settle tid (Outcome.ok v)) S).st.pendingWrites =
          some (w, mkFreshEntry cfg v S.st.now))) ∧
    (∀ (S : Sys) (tid : Nat) (cfg : Config) (k : String) (pid : Nat) (v : Nat),
      findTask tid S = some (Task.fgSettle cfg k pid) →
      alookup k (step (Act.settle tid (Outcome.ok v)) S).st.cache =
        some (mkFreshEntry cfg v S.st.now) ∧
      (cfg.persistToDisk = true →
        ∃ w, alookup (getCacheFilePath k)
          (step (Act.settle tid (Outcome.ok v)) S).st.pendingWrites =
          some (w, mkFreshEntry cfg v S.st.now))) ∧
    (∀ (S : Sys) (tid : Nat) (cfg : Config) (k : String) (err : Nat),
      findTask tid S = some (Task.bgSettle cfg k) →
      (step (Act.settle tid (Outcome.fail err)) S).st.cache = S.st.cache ∧
      (step (Act.settle tid (Outcome.fail err)) S).st.disk = S.st.disk ∧
      (step (Act.settle tid (Outcome.fail err)) S).st.pendingWrites = S.st.pendingWrites ∧
      (step (Act.settle tid (Outcome.fail err)) S).st.tagToCacheKeys =
        S.st.tagToCacheKeys) ∧
    (∀ (S : Sys) (tid : Nat) (path : String) (payload : Entry) (wpid : Nat),
      findTask tid S = some (Task.writeFin path payload wpid) →
      alookup path (step (Act.finishWrite tid true) S).st.disk = some payload) := by
  refine ⟨?_, ?_, ?_, ?_, ?_⟩
  · intro S tid cfg k e hb h1 h2 h3 h4 h5
    have hnr : needsRevalidation cfg.revalidate S.st.now e = true := by
      simp [needsRevalidation, h3, h4]
    have hstep : step (Act.run tid) S =
        finishCall tid (Outcome.ok e.data) (revalInBackground cfg k S) := by
      simp only [step, h1, runCallStart, h2]
      rw [seg2_some, if_pos hnr, if_pos h5]
    rw [hstep]
    refine ⟨?_, ?_, ?_⟩
    · rw [finishCall_results, revalInBackground_results]
    · rw [show (finishCall tid (Outcome.ok e.data)
          (revalInBackground cfg k S)).st.backgroundRevals =
          (revalInBackground cfg k S).st.backgroundRevals from rfl]
      exact revalInBackground_mem_bg cfg k S
    · intro hnb
      obtain ⟨ht, hi⟩ := revalInBackground_spawn cfg k S hnb
      constructor
      · have hmem : (S.nextId, Task.bgSettle cfg k) ∈ (revalInBackground cfg k S).tasks := by
          rw [ht]
          exact List.mem_append_right _ (List.mem_singleton.mpr rfl)
        have htid : tid < S.nextId := hb _ (alookup_mem h1)
        show (S.nextId, Task.bgSettle cfg k) ∈ aremove tid (revalInBackground cfg k S).tasks
        exact mem_aremove_of_ne hmem (Nat.ne_of_gt htid)
      · rw [show (finishCall tid (Outcome.ok e.data)
            (revalInBackground cfg k S)).invocations =
            (revalInBackground cfg k S).invocations from rfl, hi]
  · intro S tid cfg k v h1
    have hstep : step (Act.settle tid (Outcome.ok v)) S =
        settleBg tid cfg k (Outcome.ok v) S := by
      simp only [step, h1]
    rw [hstep]
    refine ⟨?_, ?_⟩
    · rw [settleBg_ok_st_cache]
      exact storeFresh_cache cfg k v S
    · intro hp
      rw [settleBg_ok_st_pending]
      exact storeFresh_pending cfg k v S hp
  · intro S tid cfg k pid v h1
    have hstep : step (Act.settle tid (Outcome.ok v)) S =
        settleFg tid cfg k pid (Outcome.ok v) S := by
      simp only [step, h1]
    rw [hstep]
    refine ⟨?_, ?_⟩
    · rw [settleFg_ok_st_cache]
      exact storeFresh_cache cfg k v S
    · intro hp
      rw [settleFg_ok_st_pending]
      exact storeFresh_pending cfg k v S hp
  · intro S tid cfg k err h1
    have hstep : step (Act.settle tid (Outcome.fail err)) S =
        settleBg tid cfg k (Outcome.fail err) S := by
      simp only [step, h1]
    rw [hstep]
    exact settleBg_fail_st_parts tid cfg k err S
  · intro S tid path payload wpid h1
    have hstep : step (Act.finishWrite tid true) S =
        doFinishWrite tid path payload wpid true S := by
      simp only [step, h1]
    rw [hstep, doFinishWrite_true_disk]
    exact alookup_ainsert_self _ _ _

/-- Claim C2 witness: all five components applied at concrete states — a
serve-stale read over `sysTwoCallers`, a background settlement, a foreground
settlement, a failed background settlement, and a completing write. -/
theorem c2_witness :
    (taskIdsBound sysTwoCallers ∧
      findTask 0 sysTwoCallers = some (Task.callStart cfgServe "k") ∧
      alookup "k" sysTwoCallers.st.cache = some eStale ∧
      cfgServe.revalidate.isSome = true ∧
      isPastExpiry sysTwoCallers.st.now eStale.expiry = true ∧
      cfgServe.serveStale = true) ∧
    ((step (Act.run 0) sysTwoCallers).results =
        sysTwoCallers.results ++ [(0, Outcome.ok eStale.data)] ∧
      "k" ∈ (step (Act.run 0) sysTwoCallers).st.backgroundRevals ∧
      ("k" ∉ sysTwoCallers.st.backgroundRevals →
        (sysTwoCallers.nextId, Task.bgSettle cfgServe "k") ∈
          (step (Act.run 0) sysTwoCallers).tasks ∧
        (step (Act.run 0) sysTwoCallers).invocations =
          sysTwoCallers.invocations ++ [("k", sysTwoCallers.nextId)])) := by
  refine ⟨⟨by unfold taskIdsBound; decide, by decide, by decide, by decide, by decide,
    by decide⟩, ?_⟩
  exact c2_stale_serve_and_background_refresh.1 sysTwoCallers 0 cfgServe "k" eStale
    (by unfold taskIdsBound; decide) (by decide) (by decide) (by decide) (by decide)
    (by decide)

/-! ## Claim C9

The staleness decision (line 149) and the recomputed expiry (lines 173/225)
use the `revalidate` destructured from the wrapper's options on line 119; the
`revalidate` field stored inside the cache entry is never read. -/

/-- Claim C9: `needsRevalidation` is insensitive to the entry's stored
`revalidate` field; a disabled wrapper policy never finds revalidation
needed, whatever the entry's expiry; the recomputed expiry comes from the
wrapper's `revalidate`; and a caller through a `revalidate: false` wrapper
serves any found entry unchanged, with no producer invocation. -/
theorem c9_wrapper_policy_decides :
    (∀ (rev : Option Nat) (now : Nat) (e : Entry) (r' : Option Nat),
      needsRevalidation rev now { e with revalidate := r' } =
        needsRevalidation rev now e) ∧
    (∀ (now : Nat) (e : Entry), needsRevalidation none now e = false) ∧
    (∀ (cfg : Config) (v : Nat) (now : Nat),
      (mkFreshEntry cfg v now).expiry = computeExpiry now cfg.revalidate ∧
      (mkFreshEntry cfg v now).revalidate = cfg.revalidate) ∧
    (∀ (S : Sys) (tid : Nat) (cfg : Config) (k : String) (e : Entry),
      findTask tid S = some (Task.callStart cfg k) →
      alookup k S.st.cache = some e →
      cfg.revalidate = none →
      step (Act.run tid) S = finishCall tid (Outcome.ok e.data) S) := by
  refine ⟨?_, ?_, ?_, ?_⟩
  · intro rev now e r'
    rfl
  · intro now e
    rfl
  · intro cfg v now
    exact ⟨rfl, rfl⟩
  · intro S tid cfg k e h1 h2 hrev
    exact serve_disabled S tid cfg k e h1 h2 hrev

/-- Claim C9 witness: the disabled-policy serve applied to the tagged
scenario: the stored entry has a past-expired variant stored under a finite
stored policy, yet the read through the `revalidate: false` wrapper serves
it untouched. -/
theorem c9_witness :
    (findTask 0 sysTagged = some (Task.callStart cfgDisabled "k") ∧
      alookup "k" sysTagged.st.cache = some eTagged ∧
      cfgDisabled.revalidate = none) ∧
    step (Act.run 0) sysTagged = finishCall 0 (Outcome.ok eTagged.data) sysTagged := by
  refine ⟨⟨by decide, by decide, rfl⟩, ?_⟩
  exact c9_wrapper_policy_decides.2.2.2 sysTagged 0 cfgDisabled "k" eTagged
    (by decide) (by decide) rfl

/-! ## Claim C10

The placeholder (`startingValue`) is invoked only on lines 164 and 203, both
inside the cold-miss tail; every path that serves an entry returns before
reaching them. -/

/-- Claim C10: a caller step that serves a usable entry (fresh, stale with
`serveStale`, or any entry under a disabled policy, which makes
`needsRevalidation` false) never invokes the placeholder; and whenever a
caller step does invoke the placeholder, the wrapper supplied one and a
producer invocation for the key is in flight at the end of the step (either
pre-existing or started by this very step). -/
theorem c10_placeholder_only_cold :
    (∀ (S : Sys) (tid : Nat) (cfg : Config) (k : String) (e : Entry),
      findTask tid S = some (Task.callStart cfg k) →
      alookup k S.st.cache = some e →
      (needsRevalidation cfg.revalidate S.st.now e = false ∨ cfg.serveStale = true) →
      (step (Act.run tid) S).placeholderCalls = S.placeholderCalls ∧
      (step (Act.run tid) S).results = S.results ++ [(tid, Outcome.ok e.data)]) ∧
    (∀ (S : Sys) (tid : Nat) (cfg : Config) (k : String),
      findTask tid S = some (Task.callStart cfg k) →
      (step (Act.run tid) S).placeholderCalls ≠ S.placeholderCalls →
      cfg.hasStartingValue = true ∧
      ∃ pid, alookup k (step (Act.run tid) S).st.inFlight = some pid) ∧
    (∀ (S : Sys) (tid : Nat) (cfg : Config) (k : String),
      findTask tid S = some (Task.callDisk cfg k) →
      (step (Act.run tid) S).placeholderCalls ≠ S.placeholderCalls →
      cfg.hasStartingValue = true ∧
      ∃ pid, alookup k (step (Act.run tid) S).st.inFlight = some pid) := by
  refine ⟨?_, ?_, ?_⟩
  · intro S tid cfg k e h1 h2 h3
    obtain ⟨hr, hp⟩ := serve_entry S tid cfg k e h1 h2 h3
    exact ⟨hp, hr⟩
  · intro S tid cfg k h1 hch
    have hstep : step (Act.run tid) S = runCallStart tid cfg k S := by
      simp only [step, h1]
    rw [hstep] at hch ⊢
    rcases hc : alookup k S.st.cache with _ | e
    · by_cases hp : cfg.persistToDisk = true
      · rw [show runCallStart tid cfg k S = setTask tid (Task.callDisk cfg k) S by
          simp only [runCallStart, hc, hp, if_true]] at hch
        exact absurd rfl hch
      · rw [show runCallStart tid cfg k S = seg2 tid cfg k none S by
          simp only [runCallStart, hc, if_neg hp]] at hch ⊢
        exact seg2_placeholder tid cfg k none S hch
    · rw [show runCallStart tid cfg k S = seg2 tid cfg k (some e) S by
        simp only [runCallStart, hc]] at hch ⊢
      exact seg2_placeholder tid cfg k (some e) S hch
  · intro S tid cfg k h1 hch
    have hstep : step (Act.run tid) S = runCallDisk tid cfg k S := by
      simp only [step, h1]
    rw [hstep] at hch ⊢
    rcases hd : alookup (getCacheFilePath k) S.st.disk with _ | e
    · rw [show runCallDisk tid cfg k S = seg2 tid cfg k none S by
        simp only [runCallDisk, hd]] at hch ⊢
      exact seg2_placeholder tid cfg k none S hch
    · by_cases hexp : isPastExpiry S.st.now e.expiry = true
      · rw [show runCallDisk tid cfg k S = seg2 tid cfg k (some e)
            { S with st.tagToCacheKeys := registerTags e.tags k S.st.tagToCacheKeys } by
          simp only [runCallDisk, hd, hexp, if_true]] at hch ⊢
        exact seg2_placeholder tid cfg k (some e) _ hch
      · rw [show runCallDisk tid cfg k S = seg2 tid cfg k (some e)
            { S with
                st.cache := ainsert k e S.st.cache
                st.tagToCacheKeys := registerTags e.tags k S.st.tagToCacheKeys } by
          simp only [runCallDisk, hd, if_neg hexp]] at hch ⊢
        exact seg2_placeholder tid cfg k (some e) _ hch

/-! ## Lemmas about revalidateTag's per-key fold -/

theorem getCacheFilePath_injective {a b : String}
    (h : getCacheFilePath a = getCacheFilePath b) : a = b := by
  have hd := congrArg String.data h
  simp only [getCacheFilePath, String.data_append] at hd
  exact string_ext (List.append_cancel_left hd)

theorem setExpiryZero_idem (e : Entry) :
    setExpiryZero (setExpiryZero e) = setExpiryZero e := rfl

theorem setExpiryZero_data (e : Entry) : (setExpiryZero e).data = e.data := rfl

theorem revalKey_cache_other (st : CState) (a k : String) (hne : a ≠ k) :
    alookup k (revalKey st a).cache = alookup k st.cache := by
  rcases h1 : alookup a st.cache with _ | e
  · rcases h2 : alookup (getCacheFilePath a) st.disk with _ | e
    · simp only [revalKey, h1, h2]
    · simp only [revalKey, h1, h2]
  · simp only [revalKey, h1]
    exact alookup_ainsert_ne (Ne.symm hne) _ _

theorem revalKey_disk_other (st : CState) (a k : String) (hne : a ≠ k) :
    alookup (getCacheFilePath k) (revalKey st a).disk =
      alookup (getCacheFilePath k) st.disk := by
  have hpne : getCacheFilePath k ≠ getCacheFilePath a :=
    fun hh => hne (getCacheFilePath_injective hh).symm
  rcases h1 : alookup a st.cache with _ | e
  · rcases h2 : alookup (getCacheFilePath a) st.disk with _ | e
    · simp only [revalKey, h1, h2]
    · simp only [revalKey, h1, h2]
      exact alookup_ainsert_ne hpne _ _
  · simp only [revalKey, h1]
    exact alookup_ainsert_ne hpne _ _

theorem revalKey_self_mem (st : CState) (k : String) (e : Entry)
    (h : alookup k st.cache = some e) :
    alookup k (revalKey st k).cache = some (setExpiryZero e) ∧
    alookup (getCacheFilePath k) (revalKey st k).disk = some (setExpiryZero e) := by
  simp only [revalKey, h]
  exact ⟨alookup_ainsert_self _ _ _, alookup_ainsert_self _ _ _⟩

theorem revalKey_self_disk (st : CState) (k : String) (e : Entry)
    (h1 : alookup k st.cache = none)
    (h2 : alookup (getCacheFilePath k) st.disk = some e) :
    alookup k (revalKey st k).cache = none ∧
    alookup (getCacheFilePath k) (revalKey st k).disk = some (setExpiryZero e) := by
  constructor
  · simp only [revalKey, h1, h2]
  · simp only [revalKey, h1, h2]
    exact alookup_ainsert_self _ _ _

theorem revalKey_self_none (st : CState) (k : String)
    (h1 : alookup k st.cache = none)
    (h2 : alookup (getCacheFilePath k) st.disk = none) :
    revalKey st k = st := by
  simp only [revalKey, h1, h2]

theorem tagProcessed_revalKey_self (k : String) (st : CState) :
    tagProcessed k st (revalKey st k) := by
  refine ⟨?_, ?_, ?_⟩
  · intro e he
    exact revalKey_self_mem st k e he
  · intro hn e hd
    exact revalKey_self_disk st k e hn hd
  · intro h1 h2
    rw [revalKey_self_none st k h1 h2]
    exact ⟨h1, h2⟩

theorem tagProcessed_step (k : String) (st0 st : CState) (a : String)
    (h : tagProcessed k st0 st) : tagProcessed k st0 (revalKey st a) := by
  by_cases ha : a = k
  · subst ha
    obtain ⟨hc, hd, hn⟩ := h
    refine ⟨?_, ?_, ?_⟩
    · intro e he
      obtain ⟨hc1, hd1⟩ := hc e he
      have hh := revalKey_self_mem st a (setExpiryZero e) hc1
      rw [setExpiryZero_idem] at hh
      exact hh
    · intro hnone e hdisk
      obtain ⟨hc1, hd1⟩ := hd hnone e hdisk
      have hh := revalKey_self_disk st a (setExpiryZero e) hc1 hd1
      rw [setExpiryZero_idem] at hh
      exact hh
    · intro h1 h2
      obtain ⟨hc1, hd1⟩ := hn h1 h2
      rw [revalKey_self_none st a hc1 hd1]
      exact ⟨hc1, hd1⟩
  · obtain ⟨hc, hd, hn⟩ := h
    refine ⟨?_, ?_, ?_⟩
    · intro e he
      obtain ⟨hc1, hd1⟩ := hc e he
      rw [revalKey_cache_other st a k ha, revalKey_disk_other st a k ha]
      exact ⟨hc1, hd1⟩
    · intro hnone e hdisk
      obtain ⟨hc1, hd1⟩ := hd hnone e hdisk
      rw [revalKey_cache_other st a k ha, revalKey_disk_other st a k ha]
      exact ⟨hc1, hd1⟩
    · intro h1 h2
      obtain ⟨hc1, hd1⟩ := hn h1 h2
      rw [revalKey_cache_other st a k ha, revalKey_disk_other st a k ha]
      exact ⟨hc1, hd1⟩

theorem tagProcessed_foldl (k : String) (st0 : CState) (t : List String) :
    ∀ st, tagProcessed k st0 st → tagProcessed k st0 (t.foldl revalKey st) := by
  induction t with
  | nil =>
    intro st h
    exact h
  | cons a t ih =>
    intro st h
    exact ih (revalKey st a) (tagProcessed_step k st0 st a h)

theorem tagProcessed_congr (k : String) (st0 st1 st : CState)
    (hc : alookup k st0.cache = alookup k st1.cache)
    (hd : alookup (getCacheFilePath k) st0.disk = alookup (getCacheFilePath k) st1.disk)
    (h : tagProcessed k st0 st) : tagProcessed k st1 st := by
  obtain ⟨h1, h2, h3⟩ := h
  refine ⟨?_, ?_, ?_⟩
  · intro e he
    exact h1 e (by rw [hc]; exact he)
  · intro hn e hdk
    exact h2 (by rw [hc]; exact hn) e (by rw [hd]; exact hdk)
  · intro ha hb
    exact h3 (by rw [hc]; exact ha) (by rw [hd]; exact hb)

theorem foldl_revalKey_processed (k : String) :
    ∀ (ks : List String) (st : CState), k ∈ ks →
      tagProcessed k st (ks.foldl revalKey st) := by
  intro ks
  induction ks with
  | nil =>
    intro st h
    cases h
  | cons a t ih =>
    intro st hk
    by_cases ha : a = k
    · subst ha
      simp only [List.foldl_cons]
      exact tagProcessed_foldl a st t (revalKey st a) (tagProcessed_revalKey_self a st)
    · have hkt : k ∈ t := by
        rcases List.mem_cons.mp hk with h | h
        · exact absurd h.symm ha
        · exact h
      simp only [List.foldl_cons]
      exact tagProcessed_congr k (revalKey st a) st _
        (revalKey_cache_other st a k ha) (revalKey_disk_other st a k ha)
        (ih (revalKey st a) hkt)

theorem foldl_revalKey_cache_not_mem (k : String) :
    ∀ (ks : List String) (st : CState), k ∉ ks →
      alookup k (ks.foldl revalKey st).cache = alookup k st.cache := by
  intro ks
  induction ks with
  | nil =>
    intro st _
    rfl
  | cons a t ih =>
    intro st hk
    have ha : a ≠ k := fun hh => hk (hh ▸ List.mem_cons_self _ _)
    simp only [List.foldl_cons]
    rw [ih (revalKey st a) (fun hh => hk (List.mem_cons_of_mem _ hh)),
      revalKey_cache_other st a k ha]

theorem revalidateTagFull_cache_pres (tag : String) (st : CState) (k : String)
    (e : Entry) (h : alookup k st.cache = some e) :
    alookup k (revalidateTagFull tag st).cache = some e ∨
    alookup k (revalidateTagFull tag st).cache = some (setExpiryZero e) := by
  rcases htag : alookup tag st.tagToCacheKeys with _ | ks
  · simp only [revalidateTagFull, htag]
    exact Or.inl h
  · simp only [revalidateTagFull, htag]
    by_cases hk : k ∈ ks
    · exact Or.inr ((foldl_revalKey_processed k ks st hk).1 e h).1
    · rw [foldl_revalKey_cache_not_mem k ks st hk]
      exact Or.inl h

theorem storeFresh_cache_other (cfg : Config) (k' : String) (v : Nat) (S : Sys)
    (k : String) (hne : k ≠ k') :
    alookup k (storeFresh cfg k' v S).st.cache = alookup k S.st.cache := by
  by_cases hp : cfg.persistToDisk = true
  · simp only [storeFresh, hp, if_true]
    rw [saveSeg_st_cache]
    exact alookup_ainsert_ne hne _ _
  · simp only [storeFresh, if_neg hp]
    exact alookup_ainsert_ne hne _ _

/-- Claim C10 witness: the serve component applied at the tagged scenario
(entry served, placeholder untouched), and the placeholder component applied
at the cold placeholder scenario (placeholder invoked, an invocation is in
flight at the end of the step). -/
theorem c10_witness :
    (findTask 0 sysTagged = some (Task.callStart cfgDisabled "k") ∧
      alookup "k" sysTagged.st.cache = some eTagged ∧
      (needsRevalidation cfgDisabled.revalidate sysTagged.st.now eTagged = false ∨
        cfgDisabled.serveStale = true) ∧
      (step (Act.run 0) sysTagged).placeholderCalls = sysTagged.placeholderCalls ∧
      (step (Act.run 0) sysTagged).results =
        sysTagged.results ++ [(0, Outcome.ok eTagged.data)]) ∧
    (findTask 0 sysPlaceholder = some (Task.callStart cfgPlaceholder "k") ∧
      (step (Act.run 0) sysPlaceholder).placeholderCalls ≠ sysPlaceholder.placeholderCalls ∧
      cfgPlaceholder.hasStartingValue = true ∧
      ∃ pid, alookup "k" (step (Act.run 0) sysPlaceholder).st.inFlight = some pid) := by
  constructor
  · refine ⟨by decide, by decide, Or.inl (by decide), ?_⟩
    exact c10_placeholder_only_cold.1 sysTagged 0 cfgDisabled "k" eTagged
      (by decide) (by decide) (Or.inl (by decide))
  · refine ⟨by decide, by decide, ?_⟩
    exact c10_placeholder_only_cold.2.1 sysPlaceholder 0 cfgPlaceholder "k"
      (by decide) (by decide)

/-! ## Claim C7

`revalidateTag` (lines 87-112): unknown tags return without error; for each
key indexed under the tag, a resolvable entry (memory first, then disk) has
its expiry forced to the past instant `0` and the change is persisted in
memory (when the entry was in memory) and on disk; unresolvable keys are
silently skipped. -/

/-- Claim C7: an unknown tag is a no-op; for any key indexed under the tag
(with no concurrent pending write for its file), the operation's net effect
on that key is exactly `tagProcessed` — memory-resolvable entries are marked
expired in memory and on disk, disk-only entries on disk with memory still
empty, unresolvable keys untouched; the marked expiry is the instant `0`,
which is past for every positive clock. -/
theorem c7_revalidate_tag_marks_stale :
    (∀ (S : Sys) (tag : String),
      alookup tag S.st.tagToCacheKeys = none →
      step (Act.revalidateTag tag) S = S) ∧
    (∀ (S : Sys) (tag : String) (ks : List String) (k : String),
      S.st.pendingWrites = [] →
      alookup tag S.st.tagToCacheKeys = some ks →
      k ∈ ks →
      tagProcessed k S.st (step (Act.revalidateTag tag) S).st) ∧
    (∀ e : Entry, (setExpiryZero e).expiry = some 0) ∧
    (∀ n : Nat, 0 < n → isPastExpiry n (some 0) = true) := by
  refine ⟨?_, ?_, ?_, ?_⟩
  · intro S tag htag
    show { S with st := revalidateTagFull tag S.st } = S
    rw [show revalidateTagFull tag S.st = S.st by simp only [revalidateTagFull, htag]]
  · intro S tag ks k _ htag hk
    show tagProcessed k S.st (revalidateTagFull tag S.st)
    simp only [revalidateTagFull, htag]
    exact foldl_revalKey_processed k ks S.st hk
  · intro e
    rfl
  · intro n h
    simp only [isPastExpiry]
    exact decide_eq_true h

/-- Claim C7 witness: the no-op component at an unknown tag and the marking
component at the tagged scenario. -/
theorem c7_witness :
    (alookup "u" sysTagged.st.tagToCacheKeys = none ∧
      step (Act.revalidateTag "u") sysTagged = sysTagged) ∧
    (sysTagged.st.pendingWrites = [] ∧
      alookup "t" sysTagged.st.tagToCacheKeys = some ["k"] ∧
      "k" ∈ ["k"] ∧
      tagProcessed "k" sysTagged.st (step (Act.revalidateTag "t") sysTagged).st) := by
  constructor
  · refine ⟨by decide, ?_⟩
    exact c7_revalidate_tag_marks_stale.1 sysTagged "u" (by decide)
  · refine ⟨by decide, by decide, by decide, ?_⟩
    exact c7_revalidate_tag_marks_stale.2.1 sysTagged "t" ["k"] "k"
      (by decide) (by decide) (by decide)

/-! ## Claim C6 (amended)

With `revalidate: false`, the wrapper serves any found entry as fresh — no
matter how much time has elapsed and no matter whether the entry has been
tag-invalidated, because `needsRevalidation` (line 149) short-circuits on
the wrapper's own disabled policy and never looks at the stored expiry. -/

/-- Claim C6 as amended: an entry read through a `revalidate: false` wrapper
is served as fresh regardless of elapsed time, even immediately after a tag
invalidation: after `revalidateTag(tag)` the entry is still present (with
the same data), and the next read returns that data with no producer
invocation and no background revalidation. -/
theorem c6_never_expire_amended (S : Sys) (tid : Nat) (cfg : Config) (k : String)
    (e : Entry) (tag : String)
    (hrev : cfg.revalidate = none)
    (h1 : findTask tid S = some (Task.callStart cfg k))
    (h2 : alookup k S.st.cache = some e) :
    ∃ e', alookup k (step (Act.revalidateTag tag) S).st.cache = some e' ∧
      e'.data = e.data ∧
      step (Act.run tid) (step (Act.revalidateTag tag) S) =
        finishCall tid (Outcome.ok e'.data) (step (Act.revalidateTag tag) S) := by
  have h1' : findTask tid (step (Act.revalidateTag tag) S) =
      some (Task.callStart cfg k) := h1
  have hpres := revalidateTagFull_cache_pres tag S.st k e h2
  rcases hpres with hp | hp
  · exact ⟨e, hp, rfl, serve_disabled _ tid cfg k e h1' hp hrev⟩
  · exact ⟨setExpiryZero e, hp, setExpiryZero_data e,
      serve_disabled _ tid cfg k (setExpiryZero e) h1' hp hrev⟩

/-- Claim C6 amended witness: the amended statement applied at the tagged
scenario. -/
theorem c6_amended_witness :
    cfgDisabled.revalidate = none ∧
    findTask 0 sysTagged = some (Task.callStart cfgDisabled "k") ∧
    alookup "k" sysTagged.st.cache = some eTagged ∧
    ∃ e', alookup "k" (step (Act.revalidateTag "t") sysTagged).st.cache = some e' ∧
      e'.data = eTagged.data ∧
      step (Act.run 0) (step (Act.revalidateTag "t") sysTagged) =
        finishCall 0 (Outcome.ok e'.data) (step (Act.revalidateTag "t") sysTagged) := by
  refine ⟨rfl, by decide, by decide, ?_⟩
  exact c6_never_expire_amended sysTagged 0 cfgDisabled "k" eTagged "t"
    rfl (by decide) (by decide)

/-! ## Claim C5 (amended)

Entry retention: the only operation of the module that removes an entry from
the Entry Store is the stale read through a `serveStale: false` wrapper with
revalidation enabled (`cache.delete(cacheKey)`, line 155); every other step
of the system — any read, any settlement, any disk write, any save, any tag
invalidation — leaves each stored key present, and tag invalidation at most
replaces the entry by the same entry marked expired.  (The source moreover
has no cache-clear operation at all.) -/

/-- Claim C5 as amended: if a key holds an entry, then after any step it
still holds an entry unless the step is a stale-drop read step for that key
(`serveStale: false`, revalidation enabled); a `revalidateTag` step keeps
the very same entry or that entry with its expiry marked past. -/
theorem c5_entry_retention_amended :
    (∀ (S : Sys) (a : Act) (k : String) (e : Entry),
      alookup k S.st.cache = some e →
      (∃ e', alookup k (step a S).st.cache = some e') ∨ isStaleDropStep a S k) ∧
    (∀ (S : Sys) (tag k : String) (e : Entry),
      alookup k S.st.cache = some e →
      alookup k (step (Act.revalidateTag tag) S).st.cache = some e ∨
      alookup k (step (Act.revalidateTag tag) S).st.cache = some (setExpiryZero e)) := by
  constructor
  · intro S a k e he
    cases a with
    | tick n => exact Or.inl ⟨e, he⟩
    | save k' e' =>
      refine Or.inl ⟨e, ?_⟩
      show alookup k (saveSeg k' e' S).1.st.cache = some e
      rw [saveSeg_st_cache]
      exact he
    | revalidateTag tag =>
      rcases revalidateTagFull_cache_pres tag S.st k e he with hp | hp
      · exact Or.inl ⟨e, hp⟩
      · exact Or.inl ⟨setExpiryZero e, hp⟩
    | run tid =>
      rcases hft : findTask tid S with _ | t
      · refine Or.inl ⟨e, ?_⟩
        rw [show step (Act.run tid) S = S by simp only [step, hft]]
        exact he
      · cases t with
        | callStart cfg k' =>
          have hstep : step (Act.run tid) S = runCallStart tid cfg k' S := by
            simp only [step, hft]
          rcases hc : alookup k' S.st.cache with _ | e2
          · by_cases hp : cfg.persistToDisk = true
            · refine Or.inl ⟨e, ?_⟩
              rw [hstep, show runCallStart tid cfg k' S =
                  setTask tid (Task.callDisk cfg k') S by
                simp only [runCallStart, hc, hp, if_true]]
              exact he
            · refine Or.inl ⟨e, ?_⟩
              rw [hstep, show runCallStart tid cfg k' S = seg2 tid cfg k' none S by
                simp only [runCallStart, hc, if_neg hp], seg2_none, coldPath_st_cache]
              exact he
          · have hstep2 : step (Act.run tid) S = seg2 tid cfg k' (some e2) S := by
              rw [hstep]
              simp only [runCallStart, hc]
            by_cases hnr : needsRevalidation cfg.revalidate S.st.now e2 = true
            · by_cases hss : cfg.serveStale = true
              · refine Or.inl ⟨e, ?_⟩
                rw [hstep2, seg2_some, if_pos hnr, if_pos hss,
                  show (finishCall tid (Outcome.ok e2.data)
                    (revalInBackground cfg k' S)).st.cache =
                    (revalInBackground cfg k' S).st.cache from rfl,
                  revalInBackground_st_cache]
                exact he
              · by_cases hkk : k' = k
                · subst hkk
                  exact Or.inr ⟨tid, cfg, rfl, Or.inl hft, Bool.eq_false_iff.mpr hss,
                    ((Bool.and_eq_true _ _).mp hnr).1⟩
                · refine Or.inl ⟨e, ?_⟩
                  rw [hstep2, seg2_some, if_pos hnr, if_neg hss, coldPath_st_cache]
                  show alookup k (aremove k' S.st.cache) = some e
                  rw [alookup_aremove_ne (fun hh : k = k' => hkk hh.symm)]
                  exact he
            · refine Or.inl ⟨e, ?_⟩
              rw [hstep2, seg2_some, if_neg hnr]
              exact he
        | callDisk cfg k' =>
          have hstep : step (Act.run tid) S = runCallDisk tid cfg k' S := by
            simp only [step, hft]
          rcases hd : alookup (getCacheFilePath k') S.st.disk with _ | e2
          · refine Or.inl ⟨e, ?_⟩
            rw [hstep, show runCallDisk tid cfg k' S = seg2 tid cfg k' none S by
              simp only [runCallDisk, hd], seg2_none, coldPath_st_cache]
            exact he
          · by_cases hexp : isPastExpiry S.st.now e2.expiry = true
            · have hstep2 : step (Act.run tid) S = seg2 tid cfg k' (some e2)
                  { S with st.tagToCacheKeys :=
                      registerTags e2.tags k' S.st.tagToCacheKeys } := by
                rw [hstep]
                simp only [runCallDisk, hd, hexp, if_true]
              by_cases hnr : needsRevalidation cfg.revalidate S.st.now e2 = true
              · by_cases hss : cfg.serveStale = true
                · refine Or.inl ⟨e, ?_⟩
                  rw [hstep2, seg2_some, if_pos hnr, if_pos hss,
                    show (finishCall tid (Outcome.ok e2.data) (revalInBackground cfg k'
                      { S with st.tagToCacheKeys :=
                          registerTags e2.tags k' S.st.tagToCacheKeys })).st.cache =
                      (revalInBackground cfg k'
                      { S with st.tagToCacheKeys :=
                          registerTags e2.tags k' S.st.tagToCacheKeys }).st.cache from rfl,
                    revalInBackground_st_cache]
                  exact he
                · by_cases hkk : k' = k
                  · subst hkk
                    exact Or.inr ⟨tid, cfg, rfl, Or.inr hft, Bool.eq_false_iff.mpr hss,
                      ((Bool.and_eq_true _ _).mp hnr).1⟩
                  · refine Or.inl ⟨e, ?_⟩
                    rw [hstep2, seg2_some, if_pos hnr, if_neg hss, coldPath_st_cache]
                    show alookup k (aremove k' S.st.cache) = some e
                    rw [alookup_aremove_ne (fun hh : k = k' => hkk hh.symm)]
                    exact he
              · refine Or.inl ⟨e, ?_⟩
                rw [hstep2, seg2_some, if_neg hnr]
                exact he
            · have hstep2 : step (Act.run tid) S = seg2 tid cfg k' (some e2)
                  { S with
                      st.cache := ainsert k' e2 S.st.cache
                      st.tagToCacheKeys :=
                        registerTags e2.tags k' S.st.tagToCacheKeys } := by
                rw [hstep]
                simp only [runCallDisk, hd, if_neg hexp]
              have hcache2 : ∃ e3, alookup k (ainsert k' e2 S.st.cache) = some e3 := by
                by_cases hkk : k' = k
                · subst hkk
                  exact ⟨e2, alookup_ainsert_self _ _ _⟩
                · refine ⟨e, ?_⟩
                  rw [alookup_ainsert_ne (fun hh : k = k' => hkk hh.symm)]
                  exact he
              by_cases hnr : needsRevalidation cfg.revalidate S.st.now e2 = true
              · by_cases hss : cfg.serveStale = true
                · obtain ⟨e3, he3⟩ := hcache2
                  refine Or.inl ⟨e3, ?_⟩
                  rw [hstep2, seg2_some, if_pos hnr, if_pos hss,
                    show (finishCall tid (Outcome.ok e2.data) (revalInBackground cfg k'
                      { S with
                          st.cache := ainsert k' e2 S.st.cache
                          st.tagToCacheKeys :=
                            registerTags e2.tags k' S.st.tagToCacheKeys })).st.cache =
                      (revalInBackground cfg k'
                      { S with
                          st.cache := ainsert k' e2 S.st.cache
                          st.tagToCacheKeys :=
                            registerTags e2.tags k' S.st.tagToCacheKeys }).st.cache from rfl,
                    revalInBackground_st_cache]
                  exact he3
                · by_cases hkk : k' = k
                  · subst hkk
                    exact Or.inr ⟨tid, cfg, rfl, Or.inr hft, Bool.eq_false_iff.mpr hss,
                      ((Bool.and_eq_true _ _).mp hnr).1⟩
                  · refine Or.inl ⟨e, ?_⟩
                    rw [hstep2, seg2_some, if_pos hnr, if_neg hss, coldPath_st_cache]
                    show alookup k (aremove k' (ainsert k' e2 S.st.cache)) = some e
                    rw [alookup_aremove_ne (fun hh : k = k' => hkk hh.symm),
                      alookup_ainsert_ne (fun hh : k = k' => hkk hh.symm)]
                    exact he
              · obtain ⟨e3, he3⟩ := hcache2
                refine Or.inl ⟨e3, ?_⟩
                rw [hstep2, seg2_some, if_neg hnr]
                exact he3
        | callAwait pid =>
          rcases hp : alookup pid S.promises with _ | o
          · refine Or.inl ⟨e, ?_⟩
            rw [show step (Act.run tid) S = S by simp only [step, hft, hp]]
            exact he
          · refine Or.inl ⟨e, ?_⟩
            rw [show step (Act.run tid) S = finishCall tid o S by
              simp only [step, hft, hp]]
            exact he
        | fgSettle cfg k' pid =>
          refine Or.inl ⟨e, ?_⟩
          rw [show step (Act.run tid) S = S by simp only [step, hft]]
          exact he
        | bgSettle cfg k' =>
          refine Or.inl ⟨e, ?_⟩
          rw [show step (Act.run tid) S = S by simp only [step, hft]]
          exact he
        | writeBody p fb w =>
          refine Or.inl ⟨e, ?_⟩
          rw [show step (Act.run tid) S = runWriteBody tid p fb w S by
            simp only [step, hft]]
          exact he
        | writeFin p pl w =>
          refine Or.inl ⟨e, ?_⟩
          rw [show step (Act.run tid) S = S by simp only [step, hft]]
          exact he
    | settle tid o =>
      rcases hft : findTask tid S with _ | t
      · refine Or.inl ⟨e, ?_⟩
        rw [show step (Act.settle tid o) S = S by simp only [step, hft]]
        exact he
      · cases t with
        | fgSettle cfg k' pid =>
          have hstep : step (Act.settle tid o) S = settleFg tid cfg k' pid o S := by
            simp only [step, hft]
          cases o with
          | ok v =>
            by_cases hkk : k' = k
            · subst hkk
              refine Or.inl ⟨mkFreshEntry cfg v S.st.now, ?_⟩
              rw [hstep, settleFg_ok_st_cache]
              exact storeFresh_cache cfg k' v S
            · refine Or.inl ⟨e, ?_⟩
              rw [hstep, settleFg_ok_st_cache,
                storeFresh_cache_other cfg k' v S k (fun hh : k = k' => hkk hh.symm)]
              exact he
          | fail err =>
            refine Or.inl ⟨e, ?_⟩
            rw [hstep]
            exact he
        | bgSettle cfg k' =>
          have hstep : step (Act.settle tid o) S = settleBg tid cfg k' o S := by
            simp only [step, hft]
          cases o with
          | ok v =>
            by_cases hkk : k' = k
            · subst hkk
              refine Or.inl ⟨mkFreshEntry cfg v S.st.now, ?_⟩
              rw [hstep, settleBg_ok_st_cache]
              exact storeFresh_cache cfg k' v S
            · refine Or.inl ⟨e, ?_⟩
              rw [hstep, settleBg_ok_st_cache,
                storeFresh_cache_other cfg k' v S k (fun hh : k = k' => hkk hh.symm)]
              exact he
          | fail err =>
            refine Or.inl ⟨e, ?_⟩
            rw [hstep]
            exact he
        | callStart cfg k' =>
          refine Or.inl ⟨e, ?_⟩
          rw [show step (Act.settle tid o) S = S by simp only [step, hft]]
          exact he
        | callDisk cfg k' =>
          refine Or.inl ⟨e, ?_⟩
          rw [show step (Act.settle tid o) S = S by simp only [step, hft]]
          exact he
        | callAwait pid =>
          refine Or.inl ⟨e, ?_⟩
          rw [show step (Act.settle tid o) S = S by simp only [step, hft]]
          exact he
        | writeBody p fb w =>
          refine Or.inl ⟨e, ?_⟩
          rw [show step (Act.settle tid o) S = S by simp only [step, hft]]
          exact he
        | writeFin p pl w =>
          refine Or.inl ⟨e, ?_⟩
          rw [show step (Act.settle tid o) S = S by simp only [step, hft]]
          exact he
    | finishWrite tid success =>
      rcases hft : findTask tid S with _ | t
      · refine Or.inl ⟨e, ?_⟩
        rw [show step (Act.finishWrite tid success) S = S by simp only [step, hft]]
        exact he
      · cases t with
        | writeFin p pl w =>
          have hstep : step (Act.finishWrite tid success) S =
              doFinishWrite tid p pl w success S := by
            simp only [step, hft]
          cases success with
          | true =>
            refine Or.inl ⟨e, ?_⟩
            rw [hstep]
            exact he
          | false =>
            refine Or.inl ⟨e, ?_⟩
            rw [hstep]
            exact he
        | callStart cfg k' =>
          refine Or.inl ⟨e, ?_⟩
          rw [show step (Act.finishWrite tid success) S = S by simp only [step, hft]]
          exact he
        | callDisk cfg k' =>
          refine Or.inl ⟨e, ?_⟩
          rw [show step (Act.finishWrite tid success) S = S by simp only [step, hft]]
          exact he
        | callAwait pid =>
          refine Or.inl ⟨e, ?_⟩
          rw [show step (Act.finishWrite tid success) S = S by simp only [step, hft]]
          exact he
        | fgSettle cfg k' pid =>
          refine Or.inl ⟨e, ?_⟩
          rw [show step (Act.finishWrite tid success) S = S by simp only [step, hft]]
          exact he
        | bgSettle cfg k' =>
          refine Or.inl ⟨e, ?_⟩
          rw [show step (Act.finishWrite tid success) S = S by simp only [step, hft]]
          exact he
        | writeBody p fb w =>
          refine Or.inl ⟨e, ?_⟩
          rw [show step (Act.finishWrite tid success) S = S by simp only [step, hft]]
          exact he
  · intro S tag k e he
    exact revalidateTagFull_cache_pres tag S.st k e he

/-! ## Claim C3: cold-miss deduplication

Setting: `n` concurrent cold callers of the same wrapper for the same key
(`initCold`), nothing stored, nothing in flight.  "Concurrent" is formalized
as: the producer does not settle until every caller has passed its initial
segments (memory lookup and disk load) and reached the in-flight check —
the schedule is a phase with no settlements after which every caller is
attached (`allAttached`), followed by anything.  The proof is a two-phase
invariant argument: `inv1` holds while no settlement has occurred, `inv2`
from the moment all callers are attached. -/

theorem setTask_bound (S : Sys) (tid : Nat) (t t' : Task)
    (hft : findTask tid S = some t)
    (hb : ∀ p ∈ S.tasks, p.1 < S.nextId) :
    ∀ p ∈ (setTask tid t' S).tasks, p.1 < (setTask tid t' S).nextId := by
  intro p hp
  rcases mem_ainsert_elim hp with rfl | hp2
  · exact hb (tid, t) (alookup_mem hft)
  · exact hb _ hp2

theorem inv1_coldPath (cfg : Config) (k : String)
    (hsv : cfg.hasStartingValue = false) (S : Sys) (tid : Nat) (t : Task)
    (hft : findTask tid S = some t)
    (hsh : t = Task.callStart cfg k ∨ t = Task.callDisk cfg k)
    (h : inv1 cfg k S) : inv1 cfg k (coldPath tid cfg k S) := by
  obtain ⟨hc, hd, hp, hr, hnd, hb, hcase⟩ := h
  have hmem : (tid, t) ∈ S.tasks := alookup_mem hft
  have htid : tid < S.nextId := hb _ hmem
  rcases hcase with ⟨hi, hf, hne, hsh1⟩ | ⟨pid, hi, hf, hfg, hsh2⟩
  · have hfl : alookup k S.st.inFlight = none := by rw [hf]; rfl
    have hstep : coldPath tid cfg k S = setTask tid (Task.callAwait S.nextId)
        { S with
            tasks := S.tasks ++ [(S.nextId, Task.fgSettle cfg k S.nextId)]
            st.inFlight := ainsert k S.nextId S.st.inFlight
            invocations := S.invocations ++ [(k, S.nextId)]
            nextId := S.nextId + 1 } := by
      simp only [coldPath, hfl, hsv, Bool.false_eq_true, if_false]
    rw [hstep]
    have htfr : alookup tid (S.tasks ++ [(S.nextId, Task.fgSettle cfg k S.nextId)]) =
        some t := alookup_append_left _ hft
    refine ⟨hc, hd, hp, hr, ?_, ?_, ?_⟩
    · show ((ainsert tid (Task.callAwait S.nextId)
        (S.tasks ++ [(S.nextId, Task.fgSettle cfg k S.nextId)])).map Prod.fst).Nodup
      rw [keys_ainsert_of_mem _ htfr]
      exact nodup_keys_append_fresh _ hnd (fun p hp2 => Nat.ne_of_lt (hb p hp2))
    · intro p hp2
      rcases mem_ainsert_elim hp2 with rfl | hp3
      · exact Nat.lt_succ_of_lt htid
      · rcases List.mem_append.mp hp3 with hp4 | hp4
        · exact Nat.lt_succ_of_lt (hb _ hp4)
        · rcases List.mem_singleton.mp hp4 with rfl
          exact Nat.lt_succ_self _
    · right
      refine ⟨S.nextId, ?_, ?_, ?_, ?_⟩
      · rw [hi]
        rfl
      · rw [hf]
        rfl
      · refine mem_ainsert_of_ne ?_ (Nat.ne_of_gt htid)
        exact List.mem_append_right _ (List.mem_singleton.mpr rfl)
      · intro p hp2
        rcases mem_ainsert_elim hp2 with rfl | hp3
        · exact Or.inr (Or.inr (Or.inl rfl))
        · rcases List.mem_append.mp hp3 with hp4 | hp4
          · rcases hsh1 _ hp4 with hh | hh
            · exact Or.inl hh
            · exact Or.inr (Or.inl hh)
          · rcases List.mem_singleton.mp hp4 with rfl
            exact Or.inr (Or.inr (Or.inr rfl))
  · have hfl : alookup k S.st.inFlight = some pid := by
      rw [hf]
      simp [alookup]
    have hstep : coldPath tid cfg k S = setTask tid (Task.callAwait pid) S := by
      simp only [coldPath, hfl, hsv, Bool.false_eq_true, if_false]
    rw [hstep]
    have hpidtid : pid ≠ tid := by
      intro hh
      subst hh
      have := mem_keys_nodup_unique hnd hfg hmem
      rcases hsh with rfl | rfl <;> simp at this
    refine ⟨hc, hd, hp, hr, ?_, setTask_bound S tid t _ hft hb, ?_⟩
    · show ((ainsert tid (Task.callAwait pid) S.tasks).map Prod.fst).Nodup
      rw [keys_ainsert_of_mem _ hft]
      exact hnd
    · right
      refine ⟨pid, hi, hf, mem_ainsert_of_ne hfg hpidtid, ?_⟩
      intro p hp2
      rcases mem_ainsert_elim hp2 with rfl | hp3
      · exact Or.inr (Or.inr (Or.inl rfl))
      · exact hsh2 _ hp3

theorem inv1_preserved (cfg : Config) (k : String)
    (hsv : cfg.hasStartingValue = false) (a : Act)
    (ha : noSettleActs [a] = true) (S : Sys)
    (h : inv1 cfg k S) : inv1 cfg k (step a S) := by
  cases a with
  | settle tid o => simp [noSettleActs] at ha
  | save k' e' => simp [noSettleActs] at ha
  | revalidateTag tag => simp [noSettleActs] at ha
  | tick n => exact h
  | finishWrite tid b =>
    rcases hft : findTask tid S with _ | t
    · rw [show step (Act.finishWrite tid b) S = S by simp only [step, hft]]
      exact h
    · have hmem := alookup_mem hft
      cases t with
      | writeFin p pl w =>
        exfalso
        obtain ⟨_, _, _, _, _, _, hcase⟩ := h
        rcases hcase with ⟨_, _, _, hsh1⟩ | ⟨pid, _, _, _, hsh2⟩
        · rcases hsh1 _ hmem with hh | hh <;> simp at hh
        · rcases hsh2 _ hmem with hh | hh | hh | hh <;> simp at hh
      | callStart cfg' k' =>
        rw [show step (Act.finishWrite tid b) S = S by simp only [step, hft]]
        exact h
      | callDisk cfg' k' =>
        rw [show step (Act.finishWrite tid b) S = S by simp only [step, hft]]
        exact h
      | callAwait pid' =>
        rw [show step (Act.finishWrite tid b) S = S by simp only [step, hft]]
        exact h
      | fgSettle cfg' k' pid' =>
        rw [show step (Act.finishWrite tid b) S = S by simp only [step, hft]]
        exact h
      | bgSettle cfg' k' =>
        rw [show step (Act.finishWrite tid b) S = S by simp only [step, hft]]
        exact h
      | writeBody p fb w =>
        rw [show step (Act.finishWrite tid b) S = S by simp only [step, hft]]
        exact h
  | run tid =>
    rcases hft : findTask tid S with _ | t
    · rw [show step (Act.run tid) S = S by simp only [step, hft]]
      exact h
    · have hmem := alookup_mem hft
      obtain ⟨hc, hd, hp, hr, hnd, hb, hcase⟩ := h
      cases t with
      | callAwait pid' =>
        have hpn : alookup pid' S.promises = none := by rw [hp]; rfl
        rw [show step (Act.run tid) S = S by simp only [step, hft, hpn]]
        exact ⟨hc, hd, hp, hr, hnd, hb, hcase⟩
      | fgSettle cfg' k' pid' =>
        rw [show step (Act.run tid) S = S by simp only [step, hft]]
        exact ⟨hc, hd, hp, hr, hnd, hb, hcase⟩
      | bgSettle cfg' k' =>
        rw [show step (Act.run tid) S = S by simp only [step, hft]]
        exact ⟨hc, hd, hp, hr, hnd, hb, hcase⟩
      | writeFin p pl w =>
        rw [show step (Act.run tid) S = S by simp only [step, hft]]
        exact ⟨hc, hd, hp, hr, hnd, hb, hcase⟩
      | writeBody p fb w =>
        exfalso
        rcases hcase with ⟨_, _, _, hsh1⟩ | ⟨pid, _, _, _, hsh2⟩
        · rcases hsh1 _ hmem with hh | hh <;> simp at hh
        · rcases hsh2 _ hmem with hh | hh | hh | hh <;> simp at hh
      | callStart cfg' k' =>
        have hck : Task.callStart cfg' k' = Task.callStart cfg k := by
          rcases hcase with ⟨_, _, _, hsh1⟩ | ⟨pid, _, _, _, hsh2⟩
          · rcases hsh1 _ hmem with hh | hh
            · exact hh
            · exact absurd hh (by simp)
          · rcases hsh2 _ hmem with hh | hh | hh | hh
            · exact hh
            · exact absurd hh (by simp)
            · exact absurd hh (by simp)
            · exact absurd hh (by simp)
        rw [hck] at hft hmem
        have hstep : step (Act.run tid) S = runCallStart tid cfg k S := by
          simp only [step, hft]
        have hmiss : alookup k S.st.cache = none := by rw [hc]; rfl
        rw [hstep]
        by_cases hpd : cfg.persistToDisk = true
        · rw [show runCallStart tid cfg k S = setTask tid (Task.callDisk cfg k) S by
            simp only [runCallStart, hmiss, hpd, if_true]]
          refine ⟨hc, hd, hp, hr, ?_, setTask_bound S tid _ _ hft hb, ?_⟩
          · show ((ainsert tid (Task.callDisk cfg k) S.tasks).map Prod.fst).Nodup
            rw [keys_ainsert_of_mem _ hft]
            exact hnd
          · rcases hcase with ⟨hi, hf, hne, hsh1⟩ | ⟨pid, hi, hf, hfg, hsh2⟩
            · left
              refine ⟨hi, hf, ?_, ?_⟩
              · exact List.ne_nil_of_mem (mem_ainsert_self tid (Task.callDisk cfg k) S.tasks)
              · intro p hpp
                rcases mem_ainsert_elim hpp with rfl | hp2
                · exact Or.inr rfl
                · exact hsh1 _ hp2
            · right
              have hpidtid : pid ≠ tid := by
                intro hh
                subst hh
                have := mem_keys_nodup_unique hnd hfg hmem
                simp at this
              refine ⟨pid, hi, hf, mem_ainsert_of_ne hfg hpidtid, ?_⟩
              intro p hpp
              rcases mem_ainsert_elim hpp with rfl | hp2
              · exact Or.inr (Or.inl rfl)
              · exact hsh2 _ hp2
        · rw [show runCallStart tid cfg k S = seg2 tid cfg k none S by
            simp only [runCallStart, hmiss, if_neg hpd], seg2_none]
          exact inv1_coldPath cfg k hsv S tid _ hft (Or.inl rfl)
            ⟨hc, hd, hp, hr, hnd, hb, hcase⟩
      | callDisk cfg' k' =>
        have hck : Task.callDisk cfg' k' = Task.callDisk cfg k := by
          rcases hcase with ⟨_, _, _, hsh1⟩ | ⟨pid, _, _, _, hsh2⟩
          · rcases hsh1 _ hmem with hh | hh
            · exact absurd hh (by simp)
            · exact hh
          · rcases hsh2 _ hmem with hh | hh | hh | hh
            · exact absurd hh (by simp)
            · exact hh
            · exact absurd hh (by simp)
            · exact absurd hh (by simp)
        rw [hck] at hft hmem
        have hstep : step (Act.run tid) S = runCallDisk tid cfg k S := by
          simp only [step, hft]
        have hmiss : alookup (getCacheFilePath k) S.st.disk = none := by
          rw [hd]
          rfl
        rw [hstep, show runCallDisk tid cfg k S = seg2 tid cfg k none S by
          simp only [runCallDisk, hmiss], seg2_none]
        exact inv1_coldPath cfg k hsv S tid _ hft (Or.inr rfl)
          ⟨hc, hd, hp, hr, hnd, hb, hcase⟩

theorem noSettleActs_cons (a : Act) (t : List Act) :
    noSettleActs (a :: t) = true ↔ noSettleActs [a] = true ∧ noSettleActs t = true := by
  simp [noSettleActs]

theorem callerOnlyActs_cons (a : Act) (t : List Act) :
    callerOnlyActs (a :: t) = true ↔
      callerOnlyActs [a] = true ∧ callerOnlyActs t = true := by
  simp [callerOnlyActs]

theorem inv1_runActs (cfg : Config) (k : String)
    (hsv : cfg.hasStartingValue = false) :
    ∀ (acts : List Act) (S : Sys), noSettleActs acts = true → inv1 cfg k S →
      inv1 cfg k (runActs acts S) := by
  intro acts
  induction acts with
  | nil =>
    intro S _ h
    exact h
  | cons a t ih =>
    intro S hall h
    obtain ⟨h1, h2⟩ := (noSettleActs_cons a t).mp hall
    exact ih (step a S) h2 (inv1_preserved cfg k hsv a h1 S h)

theorem initCold_inv1 (cfg : Config) (k : String) (n now : Nat) (hn : 1 ≤ n) :
    inv1 cfg k (initCold cfg k n now) := by
  refine ⟨rfl, rfl, rfl, rfl, ?_, ?_, Or.inl ⟨rfl, rfl, ?_, ?_⟩⟩
  · show (((List.range n).map (fun i => (i, Task.callStart cfg k))).map Prod.fst).Nodup
    rw [List.map_map]
    rw [show (Prod.fst ∘ fun i : Nat => (i, Task.callStart cfg k)) = id from rfl,
      List.map_id]
    exact List.nodup_range n
  · intro p hp
    rcases List.mem_map.mp hp with ⟨i, hi, rfl⟩
    simpa using List.mem_range.mp hi
  · intro hnil
    have h0 : List.range n = [] := List.map_eq_nil.mp hnil
    rw [List.range_eq_nil] at h0
    exact absurd h0 (Nat.pos_iff_ne_zero.mp hn)
  · intro p hp
    rcases List.mem_map.mp hp with ⟨i, hi, rfl⟩
    exact Or.inl rfl

theorem inv1_to_inv2 (cfg : Config) (k : String) (S : Sys)
    (h : inv1 cfg k S) (hat : allAttached S = true) : inv2 cfg k S := by
  obtain ⟨hc, hd, hp, hr, hnd, hb, hcase⟩ := h
  rcases hcase with ⟨hi, hf, hne, hsh1⟩ | ⟨pid, hi, hf, hfg, hsh2⟩
  · exfalso
    rcases List.exists_mem_of_ne_nil _ hne with ⟨p, hpmem⟩
    have hpa := List.all_eq_true.mp hat p hpmem
    rcases hsh1 p hpmem with hh | hh <;> rw [hh] at hpa <;> simp at hpa
  · refine ⟨pid, hi, hnd, hb, ?_, Or.inl ⟨hp, hr⟩⟩
    intro p hpmem
    have hpa := List.all_eq_true.mp hat p hpmem
    rcases hsh2 p hpmem with hh | hh | hh | hh
    · rw [hh] at hpa
      simp at hpa
    · rw [hh] at hpa
      simp at hpa
    · exact Or.inl hh
    · exact Or.inr (Or.inl hh)

theorem inv2_preserved (cfg : Config) (k : String) (a : Act)
    (ha : callerOnlyActs [a] = true) (S : Sys)
    (h : inv2 cfg k S) : inv2 cfg k (step a S) := by
  obtain ⟨pid, hi, hnd, hb, hsh, hdisj⟩ := h
  cases a with
  | save k' e' => simp [callerOnlyActs] at ha
  | revalidateTag tag => simp [callerOnlyActs] at ha
  | tick n => exact ⟨pid, hi, hnd, hb, hsh, hdisj⟩
  | run tid =>
    rcases hft : findTask tid S with _ | t
    · rw [show step (Act.run tid) S = S by simp only [step, hft]]
      exact ⟨pid, hi, hnd, hb, hsh, hdisj⟩
    · have hmem := alookup_mem hft
      cases t with
      | callStart cfg' k' =>
        exfalso
        rcases hsh _ hmem with hh | hh | hh
        · simp at hh
        · have := congrArg Prod.snd hh
          simp at this
        · rcases hh with ⟨p, fb, w, hh⟩ | ⟨p, pl, w, hh⟩ <;> simp at hh
      | callDisk cfg' k' =>
        exfalso
        rcases hsh _ hmem with hh | hh | hh
        · simp at hh
        · have := congrArg Prod.snd hh
          simp at this
        · rcases hh with ⟨p, fb, w, hh⟩ | ⟨p, pl, w, hh⟩ <;> simp at hh
      | callAwait pid' =>
        have hpid : pid' = pid := by
          rcases hsh _ hmem with hh | hh | hh
          · injection hh with h1
          · exfalso
            have := congrArg Prod.snd hh
            simp at this
          · exfalso
            rcases hh with ⟨p, fb, w, hh⟩ | ⟨p, pl, w, hh⟩ <;> simp at hh
        subst hpid
        rcases hdisj with ⟨hpe, hre⟩ | ⟨o, hpo, hnf, hro⟩
        · have hpn : alookup pid' S.promises = none := by rw [hpe]; rfl
          rw [show step (Act.run tid) S = S by simp only [step, hft, hpn]]
          exact ⟨pid', hi, hnd, hb, hsh, Or.inl ⟨hpe, hre⟩⟩
        · have hpo' : alookup pid' S.promises = some o := by
            rw [hpo]
            simp [alookup]
          rw [show step (Act.run tid) S = finishCall tid o S by
            simp only [step, hft, hpo']]
          refine ⟨pid', hi, keys_aremove_nodup hnd, ?_, ?_, Or.inr ⟨o, hpo, ?_, ?_⟩⟩
          · intro p hp2
            exact hb _ (mem_aremove_elim hp2).1
          · intro p hp2
            exact hsh _ (mem_aremove_elim hp2).1
          · intro p hp2
            exact hnf _ (mem_aremove_elim hp2).1
          · intro q hq
            rcases List.mem_append.mp hq with hq1 | hq1
            · exact hro _ hq1
            · rcases List.mem_singleton.mp hq1 with rfl
              rfl
      | fgSettle cfg' k' pid' =>
        rw [show step (Act.run tid) S = S by simp only [step, hft]]
        exact ⟨pid, hi, hnd, hb, hsh, hdisj⟩
      | bgSettle cfg' k' =>
        rw [show step (Act.run tid) S = S by simp only [step, hft]]
        exact ⟨pid, hi, hnd, hb, hsh, hdisj⟩
      | writeFin p pl w =>
        rw [show step (Act.run tid) S = S by simp only [step, hft]]
        exact ⟨pid, hi, hnd, hb, hsh, hdisj⟩
      | writeBody p fb w =>
        rw [show step (Act.run tid) S = runWriteBody tid p fb w S by
          simp only [step, hft]]
        refine ⟨pid, hi, ?_, ?_, ?_, ?_⟩
        · show ((ainsert tid _ S.tasks).map Prod.fst).Nodup
          rw [keys_ainsert_of_mem _ hft]
          exact hnd
        · exact setTask_bound S tid _ _ hft hb
        · intro q hq
          rcases mem_ainsert_elim hq with rfl | hq2
          · exact Or.inr (Or.inr (Or.inr ⟨p, _, w, rfl⟩))
          · exact hsh _ hq2
        · rcases hdisj with ⟨hpe, hre⟩ | ⟨o, hpo, hnf, hro⟩
          · exact Or.inl ⟨hpe, hre⟩
          · refine Or.inr ⟨o, hpo, ?_, hro⟩
            intro q hq
            rcases mem_ainsert_elim hq with rfl | hq2
            · simp
            · exact hnf _ hq2
  | settle tid o =>
    rcases hft : findTask tid S with _ | t
    · rw [show step (Act.settle tid o) S = S by simp only [step, hft]]
      exact ⟨pid, hi, hnd, hb, hsh, hdisj⟩
    · have hmem := alookup_mem hft
      cases t with
      | callStart cfg' k' =>
        rw [show step (Act.settle tid o) S = S by simp only [step, hft]]
        exact ⟨pid, hi, hnd, hb, hsh, hdisj⟩
      | callDisk cfg' k' =>
        rw [show step (Act.settle tid o) S = S by simp only [step, hft]]
        exact ⟨pid, hi, hnd, hb, hsh, hdisj⟩
      | callAwait pid' =>
        rw [show step (Act.settle tid o) S = S by simp only [step, hft]]
        exact ⟨pid, hi, hnd, hb, hsh, hdisj⟩
      | writeBody p fb w =>
        rw [show step (Act.settle tid o) S = S by simp only [step, hft]]
        exact ⟨pid, hi, hnd, hb, hsh, hdisj⟩
      | writeFin p pl w =>
        rw [show step (Act.settle tid o) S = S by simp only [step, hft]]
        exact ⟨pid, hi, hnd, hb, hsh, hdisj⟩
      | bgSettle cfg' k' =>
        exfalso
        rcases hsh _ hmem with hh | hh | hh
        · simp at hh
        · have := congrArg Prod.snd hh
          simp at this
        · rcases hh with ⟨p, fb, w, hh⟩ | ⟨p, pl, w, hh⟩ <;> simp at hh
      | fgSettle cfg' k' pid' =>
        have hident : tid = pid ∧ Task.fgSettle cfg' k' pid' = Task.fgSettle cfg k pid := by
          rcases hsh _ hmem with hh | hh | hh
          · exact absurd hh (by simp)
          · exact ⟨congrArg Prod.fst hh, congrArg Prod.snd hh⟩
          · exfalso
            rcases hh with ⟨p, fb, w, hh⟩ | ⟨p, pl, w, hh⟩ <;> simp at hh
        obtain ⟨htid, hfge⟩ := hident
        rw [hfge] at hft hmem
        rcases hdisj with ⟨hpe, hre⟩ | ⟨o', hpo, hnf, hro⟩
        swap
        · exact absurd rfl (hnf _ hmem)
        · have hstep : step (Act.settle tid o) S = settleFg tid cfg k pid o S := by
            simp only [step, hft]
          rw [hstep]
          cases o with
          | ok v =>
            rcases storeFresh_tasks_nextId cfg k v S with ⟨hts, hni⟩ | ⟨hts, hni⟩
            · refine ⟨pid, ?_, ?_, ?_, ?_, Or.inr ⟨Outcome.ok v, ?_, ?_, ?_⟩⟩
              · show (storeFresh cfg k v S).invocations = [(k, pid)]
                rw [storeFresh_invocations]
                exact hi
              · show ((aremove tid (storeFresh cfg k v S).tasks).map Prod.fst).Nodup
                rw [hts]
                exact keys_aremove_nodup hnd
              · intro p hp2
                have hp2x : p ∈ aremove tid (storeFresh cfg k v S).tasks := hp2
                rw [hts] at hp2x
                have hp3 := mem_aremove_elim hp2x
                have hlt := hb _ hp3.1
                show p.1 < (storeFresh cfg k v S).nextId
                rw [hni]
                exact hlt
              · intro p hp2
                have hp2x : p ∈ aremove tid (storeFresh cfg k v S).tasks := hp2
                rw [hts] at hp2x
                have hp3 := mem_aremove_elim hp2x
                exact hsh _ hp3.1
              · show (storeFresh cfg k v S).promises ++ [(pid, Outcome.ok v)] =
                  [(pid, Outcome.ok v)]
                rw [storeFresh_promises, hpe]
                rfl
              · intro p hp2
                have hp2x : p ∈ aremove tid (storeFresh cfg k v S).tasks := hp2
                rw [hts] at hp2x
                have hp3 := mem_aremove_elim hp2x
                rcases hsh _ hp3.1 with hh | hh | hh
                · rw [hh]
                  simp
                · exfalso
                  apply hp3.2
                  rw [congrArg Prod.fst hh, ← htid]
                · rcases hh with ⟨pp, fb, w, hh⟩ | ⟨pp, pl, w, hh⟩ <;> rw [hh] <;> simp
              · show ∀ q ∈ (storeFresh cfg k v S).results, q.2 = Outcome.ok v
                rw [storeFresh_results, hre]
                intro q hq
                cases hq
            · refine ⟨pid, ?_, ?_, ?_, ?_, Or.inr ⟨Outcome.ok v, ?_, ?_, ?_⟩⟩
              · show (storeFresh cfg k v S).invocations = [(k, pid)]
                rw [storeFresh_invocations]
                exact hi
              · show ((aremove tid (storeFresh cfg k v S).tasks).map Prod.fst).Nodup
                rw [hts]
                exact keys_aremove_nodup
                  (nodup_keys_append_fresh _ hnd (fun p hp2 => Nat.ne_of_lt (hb p hp2)))
              · intro p hp2
                have hp2x : p ∈ aremove tid (storeFresh cfg k v S).tasks := hp2
                rw [hts] at hp2x
                have hp3 := mem_aremove_elim hp2x
                show p.1 < (storeFresh cfg k v S).nextId
                rw [hni]
                rcases List.mem_append.mp hp3.1 with hp4 | hp4
                · exact Nat.lt_succ_of_lt (hb _ hp4)
                · rcases List.mem_singleton.mp hp4 with rfl
                  exact Nat.lt_succ_self _
              · intro p hp2
                have hp2x : p ∈ aremove tid (storeFresh cfg k v S).tasks := hp2
                rw [hts] at hp2x
                have hp3 := mem_aremove_elim hp2x
                rcases List.mem_append.mp hp3.1 with hp4 | hp4
                · exact hsh _ hp4
                · rcases List.mem_singleton.mp hp4 with rfl
                  exact Or.inr (Or.inr (Or.inl ⟨_, _, _, rfl⟩))
              · show (storeFresh cfg k v S).promises ++ [(pid, Outcome.ok v)] =
                  [(pid, Outcome.ok v)]
                rw [storeFresh_promises, hpe]
                rfl
              · intro p hp2
                have hp2x : p ∈ aremove tid (storeFresh cfg k v S).tasks := hp2
                rw [hts] at hp2x
                have hp3 := mem_aremove_elim hp2x
                rcases List.mem_append.mp hp3.1 with hp4 | hp4
                · rcases hsh _ hp4 with hh | hh | hh
                  · rw [hh]
                    simp
                  · exfalso
                    apply hp3.2
                    rw [congrArg Prod.fst hh, ← htid]
                  · rcases hh with ⟨pp, fb, w, hh⟩ | ⟨pp, pl, w, hh⟩ <;> rw [hh] <;> simp
                · rcases List.mem_singleton.mp hp4 with rfl
                  simp
              · show ∀ q ∈ (storeFresh cfg k v S).results, q.2 = Outcome.ok v
                rw [storeFresh_results, hre]
                intro q hq
                cases hq
          | fail err =>
            refine ⟨pid, hi, keys_aremove_nodup hnd, ?_, ?_,
              Or.inr ⟨Outcome.fail err, ?_, ?_, ?_⟩⟩
            · intro p hp2
              exact hb _ (mem_aremove_elim hp2).1
            · intro p hp2
              exact hsh _ (mem_aremove_elim hp2).1
            · show S.promises ++ [(pid, Outcome.fail err)] = [(pid, Outcome.fail err)]
              rw [hpe]
              rfl
            · intro p hp2
              have hp3 := mem_aremove_elim hp2
              rcases hsh _ hp3.1 with hh | hh | hh
              · rw [hh]
                simp
              · exfalso
                apply hp3.2
                rw [congrArg Prod.fst hh, ← htid]
              · rcases hh with ⟨pp, fb, w, hh⟩ | ⟨pp, pl, w, hh⟩ <;> rw [hh] <;> simp
            · show ∀ q ∈ S.results, q.2 = Outcome.fail err
              rw [hre]
              intro q hq
              cases hq
  | finishWrite tid b =>
    rcases hft : findTask tid S with _ | t
    · rw [show step (Act.finishWrite tid b) S = S by simp only [step, hft]]
      exact ⟨pid, hi, hnd, hb, hsh, hdisj⟩
    · have hmem := alookup_mem hft
      cases t with
      | writeFin p pl w =>
        rw [show step (Act.finishWrite tid b) S = doFinishWrite tid p pl w b S by
          simp only [step, hft]]
        cases b with
        | true =>
          refine ⟨pid, hi, keys_aremove_nodup hnd, ?_, ?_, ?_⟩
          · intro q hq
            exact hb _ (mem_aremove_elim hq).1
          · intro q hq
            exact hsh _ (mem_aremove_elim hq).1
          · rcases hdisj with ⟨hpe, hre⟩ | ⟨o, hpo, hnf, hro⟩
            · exact Or.inl ⟨hpe, hre⟩
            · refine Or.inr ⟨o, hpo, ?_, hro⟩
              intro q hq
              exact hnf _ (mem_aremove_elim hq).1
        | false =>
          refine ⟨pid, hi, keys_aremove_nodup hnd, ?_, ?_, ?_⟩
          · intro q hq
            exact hb _ (mem_aremove_elim hq).1
          · intro q hq
            exact hsh _ (mem_aremove_elim hq).1
          · rcases hdisj with ⟨hpe, hre⟩ | ⟨o, hpo, hnf, hro⟩
            · exact Or.inl ⟨hpe, hre⟩
            · refine Or.inr ⟨o, hpo, ?_, hro⟩
              intro q hq
              exact hnf _ (mem_aremove_elim hq).1
      | callStart cfg' k' =>
        rw [show step (Act.finishWrite tid b) S = S by simp only [step, hft]]
        exact ⟨pid, hi, hnd, hb, hsh, hdisj⟩
      | callDisk cfg' k' =>
        rw [show step (Act.finishWrite tid b) S = S by simp only [step, hft]]
        exact ⟨pid, hi, hnd, hb, hsh, hdisj⟩
      | callAwait pid' =>
        rw [show step (Act.finishWrite tid b) S = S by simp only [step, hft]]
        exact ⟨pid, hi, hnd, hb, hsh, hdisj⟩
      | fgSettle cfg' k' pid' =>
        rw [show step (Act.finishWrite tid b) S = S by simp only [step, hft]]
        exact ⟨pid, hi, hnd, hb, hsh, hdisj⟩
      | bgSettle cfg' k' =>
        rw [show step (Act.finishWrite tid b) S = S by simp only [step, hft]]
        exact ⟨pid, hi, hnd, hb, hsh, hdisj⟩
      | writeBody p fb w =>
        rw [show step (Act.finishWrite tid b) S = S by simp only [step, hft]]
        exact ⟨pid, hi, hnd, hb, hsh, hdisj⟩

theorem inv2_runActs (cfg : Config) (k : String) :
    ∀ (acts : List Act) (S : Sys), callerOnlyActs acts = true → inv2 cfg k S →
      inv2 cfg k (runActs acts S) := by
  intro acts
  induction acts with
  | nil =>
    intro S _ h
    exact h
  | cons a t ih =>
    intro S hall h
    obtain ⟨h1, h2⟩ := (callerOnlyActs_cons a t).mp hall
    exact ih (step a S) h2 (inv2_preserved cfg k a h1 S h)

theorem inv2_conclusions (cfg : Config) (k : String) (S : Sys) (h : inv2 cfg k S) :
    S.invocations.length = 1 ∧
    (∀ q ∈ S.results, ∀ q' ∈ S.results, q.2 = q'.2) ∧
    (∀ pr ∈ S.promises, ∀ q ∈ S.results, q.2 = pr.2) ∧
    S.promises.length ≤ 1 := by
  obtain ⟨pid, hi, _, _, _, hdisj⟩ := h
  refine ⟨by rw [hi]; rfl, ?_, ?_, ?_⟩
  · intro q hq q' hq'
    rcases hdisj with ⟨_, hre⟩ | ⟨o, _, _, hro⟩
    · rw [hre] at hq
      cases hq
    · rw [hro _ hq, hro _ hq']
  · intro pr hpr q hq
    rcases hdisj with ⟨hpe, _⟩ | ⟨o, hpo, _, hro⟩
    · rw [hpe] at hpr
      cases hpr
    · rw [hpo] at hpr
      rcases List.mem_singleton.mp hpr with rfl
      rw [hro _ hq]
  · rcases hdisj with ⟨hpe, _⟩ | ⟨o, hpo, _, _⟩
    · rw [hpe]
      exact Nat.zero_le 1
    · rw [hpo]
      exact Nat.le_refl 1

/-- Claim C3: for `n` concurrent cold callers of one wrapper and one key —
formalized as a schedule whose first phase contains no producer settlement
and ends with every caller past its in-flight check — the producer is
invoked exactly once, every caller that finishes receives the same outcome,
and that outcome is the settlement of the single producer promise. -/
theorem c3_cold_dedup (cfg : Config) (k : String) (n now : Nat)
    (acts1 acts2 : List Act)
    (hsv : cfg.hasStartingValue = false)
    (hn : 1 ≤ n)
    (h1 : noSettleActs acts1 = true)
    (h2 : callerOnlyActs acts2 = true)
    (hat : allAttached (runActs acts1 (initCold cfg k n now)) = true) :
    (runActs (acts1 ++ acts2) (initCold cfg k n now)).invocations.length = 1 ∧
    (∀ q ∈ (runActs (acts1 ++ acts2) (initCold cfg k n now)).results,
      ∀ q' ∈ (runActs (acts1 ++ acts2) (initCold cfg k n now)).results,
        q.2 = q'.2) ∧
    (∀ pr ∈ (runActs (acts1 ++ acts2) (initCold cfg k n now)).promises,
      ∀ q ∈ (runActs (acts1 ++ acts2) (initCold cfg k n now)).results,
        q.2 = pr.2) ∧
    (runActs (acts1 ++ acts2) (initCold cfg k n now)).promises.length ≤ 1 := by
  rw [runActs_append]
  have hI1 : inv1 cfg k (runActs acts1 (initCold cfg k n now)) :=
    inv1_runActs cfg k hsv acts1 (initCold cfg k n now) h1
      (initCold_inv1 cfg k n now hn)
  have hI2 : inv2 cfg k (runActs acts1 (initCold cfg k n now)) :=
    inv1_to_inv2 cfg k _ hI1 hat
  exact inv2_conclusions cfg k _
    (inv2_runActs cfg k acts2 _ h2 hI2)

/-- Claim C3 witness: two concurrent cold callers with disk persistence; the
schedule runs both callers to the disk load, resumes both (the first starts
the producer, the second attaches), settles the producer successfully,
collects both results and completes the spawned disk write. -/
theorem c3_witness :
    (cfgServe.hasStartingValue = false ∧ 1 ≤ 2 ∧
      noSettleActs [Act.run 0, Act.run 1, Act.run 0, Act.run 1] = true ∧
      callerOnlyActs [Act.settle 2 (Outcome.ok 9), Act.run 0, Act.run 1,
        Act.run 3, Act.finishWrite 3 true] = true ∧
      allAttached (runActs [Act.run 0, Act.run 1, Act.run 0, Act.run 1]
        (initCold cfgServe "k" 2 0)) = true) ∧
    ((runActs ([Act.run 0, Act.run 1, Act.run 0, Act.run 1] ++
        [Act.settle 2 (Outcome.ok 9), Act.run 0, Act.run 1,
          Act.run 3, Act.finishWrite 3 true])
        (initCold cfgServe "k" 2 0)).invocations.length = 1 ∧
      (∀ q ∈ (runActs ([Act.run 0, Act.run 1, Act.run 0, Act.run 1] ++
          [Act.settle 2 (Outcome.ok 9), Act.run 0, Act.run 1,
            Act.run 3, Act.finishWrite 3 true])
          (initCold cfgServe "k" 2 0)).results,
        ∀ q' ∈ (runActs ([Act.run 0, Act.run 1, Act.run 0, Act.run 1] ++
          [Act.settle 2 (Outcome.ok 9), Act.run 0, Act.run 1,
            Act.run 3, Act.finishWrite 3 true])
          (initCold cfgServe "k" 2 0)).results, q.2 = q'.2)) := by
  refine ⟨⟨rfl, by decide, by decide, by decide, by decide⟩, ?_⟩
  have := c3_cold_dedup cfgServe "k" 2 0
    [Act.run 0, Act.run 1, Act.run 0, Act.run 1]
    [Act.settle 2 (Outcome.ok 9), Act.run 0, Act.run 1,
      Act.run 3, Act.finishWrite 3 true]
    rfl (by decide) (by decide) (by decide) (by decide)
  exact ⟨this.1, this.2.1⟩

/-- Claim C5 amended witness: the retention statement applied at the
stale-drop scenario (where the right disjunct holds) and the tag-marking
statement applied at the tagged scenario. -/
theorem c5_amended_witness :
    (alookup "k" sysStaleDrop.st.cache = some eStale ∧
      ((∃ e', alookup "k" (step (Act.run 0) sysStaleDrop).st.cache = some e') ∨
        isStaleDropStep (Act.run 0) sysStaleDrop "k")) ∧
    (alookup "k" sysTagged.st.cache = some eTagged ∧
      (alookup "k" (step (Act.revalidateTag "t") sysTagged).st.cache = some eTagged ∨
        alookup "k" (step (Act.revalidateTag "t") sysTagged).st.cache =
          some (setExpiryZero eTagged))) := by
  constructor
  · refine ⟨by decide, ?_⟩
    exact c5_entry_retention_amended.1 sysStaleDrop (Act.run 0) "k" eStale (by decide)
  · refine ⟨by decide, ?_⟩
    exact c5_entry_retention_amended.2 sysTagged "t" "k" eTagged (by decide)

end QuickCache
